import Mathlib

/-!
Verification development for the scene-command pipeline of the repository:
the incremental command extractor (`IncrementalCommandParser` in
`src/app/api/chat/route.ts`), the full-buffer extraction
(`extractSceneCommands` in the page component), the scene document store
(`useSceneStore` reducer), the renderer synchronization loops of
`ThreeBackground`, and the animation procedure runner (`applyAnimation`).

Text is modelled as `List Char`; JS `Record` maps are association lists
preserving JS insertion-order semantics; JS numbers appearing in the scene
document are modelled as rationals (exact; no arithmetic is performed on
them by the store).  `JSON.parse` is modelled by an executable
recursive-descent parser `jsonParse`; number tokens are kept as validated
lexemes, which is adequate because every theorem compares results of the
same parser on identical substrings.
-/

namespace Scene

/-! ## Characters and tags -/

/-- The `{` character (written via its code point). -/
def lbrace : Char := Char.ofNat 123

/-- The `}` character (written via its code point). -/
def rbrace : Char := Char.ofNat 125

/-- The `[` character. -/
def lbrack : Char := Char.ofNat 91

/-- The `]` character. -/
def rbrack : Char := Char.ofNat 93

/-- The backslash character. -/
def bslash : Char := Char.ofNat 92

/-- The double-quote character. -/
def quoteC : Char := Char.ofNat 34

/-- The literal opening tag `<scene-commands>` scanned for by the extractor. -/
def openTagL : List Char := "<scene-commands>".data

/-- The literal closing tag scanned for by the extractor. -/
def closeTagL : List Char := ("<" ++ "/scene-commands>").data

/-- `leadsWith p l` is true when the list `l` starts with `p`
(models JS `l.startsWith(p)` on the remaining buffer). -/
def leadsWith : List Char → List Char → Bool
  | [], _ => true
  | _ :: _, [] => false
  | a :: p, b :: l => a = b && leadsWith p l

/-- JSON insignificant whitespace (space, tab, line feed, carriage return). -/
def isJsonWs (c : Char) : Bool :=
  c = ' ' || c = Char.ofNat 9 || c = Char.ofNat 10 || c = Char.ofNat 13

/-- Whitespace removed by JS `String.prototype.trim` (the ASCII portion
relevant to this development; also vertical tab and form feed). -/
def isTrimWs (c : Char) : Bool :=
  isJsonWs c || c = Char.ofNat 11 || c = Char.ofNat 12

/-- Model of JS `String.prototype.trim`. -/
def trimWs (l : List Char) : List Char :=
  ((l.dropWhile isTrimWs).reverse.dropWhile isTrimWs).reverse

/-! ## JSON values and a model of `JSON.parse` -/

/-- JSON values as produced by `JSON.parse`.  Numbers are kept as their
validated lexeme; strings are kept decoded. -/
inductive Json where
  | null : Json
  | bool (b : Bool) : Json
  | num (lexeme : List Char) : Json
  | str (s : List Char) : Json
  | arr (elems : List Json) : Json
  | obj (members : List (List Char × Json)) : Json
deriving Repr

/-- Skip JSON whitespace. -/
def skipWs : List Char → List Char
  | [] => []
  | c :: r => if isJsonWs c then skipWs r else c :: r

/-- Decimal digit test. -/
def isDigitC (c : Char) : Bool := ('0' ≤ c) && (c ≤ '9')

/-- Hexadecimal digit test. -/
def isHexC (c : Char) : Bool :=
  isDigitC c || (('a' ≤ c) && (c ≤ 'f')) || (('A' ≤ c) && (c ≤ 'F'))

/-- Numeric value of a hexadecimal digit. -/
def hexVal (c : Char) : Nat :=
  if isDigitC c then c.toNat - 48
  else if ('a' ≤ c) && (c ≤ 'f') then c.toNat - 87
  else c.toNat - 55

/-- Parse the body of a JSON string after the opening quote: returns the
decoded characters and the input after the closing quote.  Mirrors the
`JSON.parse` string grammar: the recognised escapes, rejection of raw
control characters, and `\uXXXX` sequences (decoded through `Char.ofNat`,
which collapses unpaired surrogates; this is uniform across all uses). -/
def parseStrBody : Nat → List Char → Option (List Char × List Char)
  | 0, _ => none
  | _, [] => none
  | fuel + 1, c :: r =>
    if c = quoteC then some ([], r)
    else if c = bslash then
      match r with
      | [] => none
      | e :: r' =>
        let cont (d : Char) (rest : List Char) : Option (List Char × List Char) :=
          (parseStrBody fuel rest).map (fun p => (d :: p.1, p.2))
        if e = quoteC then cont quoteC r'
        else if e = bslash then cont bslash r'
        else if e = '/' then cont '/' r'
        else if e = 'b' then cont (Char.ofNat 8) r'
        else if e = 'f' then cont (Char.ofNat 12) r'
        else if e = 'n' then cont (Char.ofNat 10) r'
        else if e = 'r' then cont (Char.ofNat 13) r'
        else if e = 't' then cont (Char.ofNat 9) r'
        else if e = 'u' then
          match r' with
          | h1 :: h2 :: h3 :: h4 :: r'' =>
            if isHexC h1 && isHexC h2 && isHexC h3 && isHexC h4 then
              cont (Char.ofNat
                (((hexVal h1 * 16 + hexVal h2) * 16 + hexVal h3) * 16 + hexVal h4)) r''
            else none
          | _ => none
        else none
    else if c.toNat < 32 then none
    else (parseStrBody fuel r).map (fun p => (c :: p.1, p.2))

/-- Parse the integer part of a JSON number (`0` or `[1-9][0-9]*`). -/
def parseIntPart : List Char → Option (List Char × List Char)
  | [] => none
  | c :: r =>
    if c = '0' then some ([c], r)
    else if isDigitC c then
      some (c :: r.takeWhile isDigitC, r.dropWhile isDigitC)
    else none

/-- Parse an optional JSON fraction part (`. [0-9]+`); on no match returns
the empty lexeme and the unchanged input. -/
def parseFracPart (s : List Char) : List Char × List Char :=
  match s with
  | d :: r =>
    if d = '.' then
      let ds := r.takeWhile isDigitC
      if ds.isEmpty then ([], s) else (d :: ds, r.dropWhile isDigitC)
    else ([], s)
  | [] => ([], s)

/-- Parse an optional JSON exponent part (`[eE] [+-]? [0-9]+`); on no match
returns the empty lexeme and the unchanged input. -/
def parseExpPart (s : List Char) : List Char × List Char :=
  match s with
  | e :: r =>
    if e = 'e' || e = 'E' then
      let (sgn, r2) :=
        match r with
        | s' :: r2' =>
          if s' = '+' || s' = '-' then (([s'] : List Char), r2')
          else (([] : List Char), r)
        | [] => (([] : List Char), r)
      let ds := r2.takeWhile isDigitC
      if ds.isEmpty then ([], s) else (e :: (sgn ++ ds), r2.dropWhile isDigitC)
    else ([], s)
  | [] => ([], s)

/-- Parse a JSON number lexeme: `-? (0 | [1-9][0-9]*) (. [0-9]+)? ([eE][+-]?[0-9]+)?`.
Returns the full lexeme and the rest of the input. -/
def parseNumLex (s : List Char) : Option (List Char × List Char) :=
  let (neg, s1) :=
    match s with
    | c :: r => if c = '-' then (([c] : List Char), r) else (([] : List Char), s)
    | [] => (([] : List Char), s)
  match parseIntPart s1 with
  | none => none
  | some (ip, rest) =>
    let (fp, rest2) := parseFracPart rest
    let (ep, rest3) := parseExpPart rest2
    some (neg ++ ip ++ fp ++ ep, rest3)

mutual

/-- Parse a single JSON value starting at the head of the input (leading
whitespace already skipped).  Returns the value and the rest. -/
def parseValue : Nat → List Char → Option (Json × List Char)
  | 0, _ => none
  | fuel + 1, s =>
    match s with
    | [] => none
    | c :: r =>
      if c = 'n' then
        if leadsWith "ull".data r then some (Json.null, r.drop 3) else none
      else if c = 't' then
        if leadsWith "rue".data r then some (Json.bool true, r.drop 3) else none
      else if c = 'f' then
        if leadsWith "alse".data r then some (Json.bool false, r.drop 4) else none
      else if c = quoteC then
        (parseStrBody (r.length + 1) r).map (fun p => (Json.str p.1, p.2))
      else if c = lbrack then
        match skipWs r with
        | c2 :: r2 =>
          if c2 = rbrack then some (Json.arr [], r2)
          else
            (parseArrayItems fuel (skipWs r)).map (fun p => (Json.arr p.1, p.2))
        | [] => none
      else if c = lbrace then
        match skipWs r with
        | c2 :: r2 =>
          if c2 = rbrace then some (Json.obj [], r2)
          else
            (parseObjItems fuel (skipWs r)).map (fun p => (Json.obj p.1, p.2))
        | [] => none
      else
        (parseNumLex s).map (fun p => (Json.num p.1, p.2))

/-- Parse one or more comma-separated array elements followed by `]`. -/
def parseArrayItems : Nat → List Char → Option (List Json × List Char)
  | 0, _ => none
  | fuel + 1, s =>
    match parseValue fuel s with
    | none => none
    | some (v, rest) =>
      match skipWs rest with
      | c :: r =>
        if c = rbrack then some ([v], r)
        else if c = ',' then
          (parseArrayItems fuel (skipWs r)).map (fun p => (v :: p.1, p.2))
        else none
      | [] => none

/-- Parse one or more comma-separated `"key": value` members followed by
the closing brace. -/
def parseObjItems : Nat → List Char → Option (List (List Char × Json) × List Char)
  | 0, _ => none
  | fuel + 1, s =>
    match s with
    | c :: r =>
      if c = quoteC then
        match parseStrBody (r.length + 1) r with
        | none => none
        | some (key, rest) =>
          match skipWs rest with
          | c2 :: r2 =>
            if c2 = ':' then
              match parseValue fuel (skipWs r2) with
              | none => none
              | some (v, rest2) =>
                match skipWs rest2 with
                | c3 :: r3 =>
                  if c3 = rbrace then some ([(key, v)], r3)
                  else if c3 = ',' then
                    match skipWs r3 with
                    | c4 :: r4 =>
                      if c4 = quoteC then
                        (parseObjItems fuel (c4 :: r4)).map
                          (fun p => ((key, v) :: p.1, p.2))
                      else none
                    | [] => none
                  else none
                | [] => none
            else none
          | [] => none
      else none
    | [] => none

end

/-- Model of `JSON.parse`: parse a complete JSON text (leading and trailing
whitespace permitted, full input must be consumed). -/
def jsonParse (s : List Char) : Option Json :=
  match parseValue (2 * s.length + 4) (skipWs s) with
  | some (v, rest) => if (skipWs rest).isEmpty then some v else none
  | none => none

/-! ## The incremental command extractor (`IncrementalCommandParser`) -/

/-- The private mutable state of `IncrementalCommandParser`. -/
structure ParserState where
  buffer : List Char
  processedIndex : Nat
  insideBlock : Bool
  jsonBuffer : List Char
  braceDepth : Int
  inString : Bool
  escapeNext : Bool
deriving Repr, DecidableEq

/-- The freshly constructed parser state. -/
def initState : ParserState :=
  { buffer := [], processedIndex := 0, insideBlock := false, jsonBuffer := [],
    braceDepth := 0, inString := false, escapeNext := false }

/-- One iteration of the `extractNewCommands` scanning loop, with the
rest of the loop abstracted as a continuation `k`.  Each branch mirrors
the corresponding branch of the source loop, in source order: opening-tag
match / partial-opening-tag wait / skip while outside the block;
closing-tag match / partial-closing-tag wait; escaped character;
backslash inside a string; quote toggle; `{` (starting a fresh capture at
depth 0); `}` (decrement depth — never clamped — and attempt `JSON.parse`
when the new depth is 0 and the capture is non-blank); any other
character (captured only at positive depth).  The two wait branches
return without consuming input (the loop `break`). -/
def extractStep (k : ParserState → List Json × ParserState) (st : ParserState) :
    List Json × ParserState :=
  match st.buffer.drop st.processedIndex with
  | [] => ([], st)
  | char :: _ =>
    let remaining := st.buffer.drop st.processedIndex
    if st.insideBlock = false then
      if leadsWith openTagL remaining then
        k { st with insideBlock := true, jsonBuffer := [], braceDepth := 0,
                    inString := false, escapeNext := false,
                    processedIndex := st.processedIndex + openTagL.length }
      else if remaining.length < openTagL.length ∧ leadsWith remaining openTagL then
        ([], st)
      else
        k { st with processedIndex := st.processedIndex + 1 }
    else
      if leadsWith closeTagL remaining then
        k { st with insideBlock := false, jsonBuffer := [], braceDepth := 0,
                    processedIndex := st.processedIndex + closeTagL.length }
      else if remaining.length < closeTagL.length ∧ leadsWith remaining closeTagL then
        ([], st)
      else if st.escapeNext then
        k { st with escapeNext := false, jsonBuffer := st.jsonBuffer ++ [char],
                    processedIndex := st.processedIndex + 1 }
      else if char = bslash ∧ st.inString then
        k { st with escapeNext := true, jsonBuffer := st.jsonBuffer ++ [char],
                    processedIndex := st.processedIndex + 1 }
      else if char = quoteC ∧ st.escapeNext = false then
        k { st with inString := !st.inString, jsonBuffer := st.jsonBuffer ++ [char],
                    processedIndex := st.processedIndex + 1 }
      else if st.inString = false ∧ char = lbrace then
        k { st with jsonBuffer := if st.braceDepth = 0 then [lbrace] else st.jsonBuffer ++ [char],
                    braceDepth := st.braceDepth + 1,
                    processedIndex := st.processedIndex + 1 }
      else if st.inString = false ∧ char = rbrace then
        let jb := st.jsonBuffer ++ [char]
        if st.braceDepth - 1 = 0 ∧ (trimWs jb).isEmpty = false then
          let rest := k { st with braceDepth := st.braceDepth - 1, jsonBuffer := [],
                                  processedIndex := st.processedIndex + 1 }
          match jsonParse jb with
          | some v => (v :: rest.1, rest.2)
          | none => rest
        else
          k { st with braceDepth := st.braceDepth - 1, jsonBuffer := jb,
                      processedIndex := st.processedIndex + 1 }
      else
        k { st with jsonBuffer := if st.braceDepth > 0 then st.jsonBuffer ++ [char] else st.jsonBuffer,
                    processedIndex := st.processedIndex + 1 }

/-- The scanning loop with an explicit fuel argument; any fuel at least
`buffer.length - processedIndex` gives the loop's true result
(`extractLoop` below supplies it). -/
def extractGo : Nat → ParserState → List Json × ParserState
  | 0, st => ([], st)
  | fuel + 1, st => extractStep (extractGo fuel) st

/-- The scanning loop run to completion on the current buffer. -/
def extractLoop (st : ParserState) : List Json × ParserState :=
  extractGo (st.buffer.length - st.processedIndex) st

/-- `addChunk`: append a chunk to the buffer and extract newly completed
commands. -/
def addChunk (st : ParserState) (chunk : List Char) : List Json × ParserState :=
  extractLoop { st with buffer := st.buffer ++ chunk }

/-- Feed a sequence of chunks to one parser, concatenating the commands
each call returns (the streaming orchestrator's usage pattern). -/
def feedChunks (st : ParserState) : List (List Char) → List Json × ParserState
  | [] => ([], st)
  | c :: cs =>
    let r := addChunk st c
    let r2 := feedChunks r.2 cs
    (r.1 ++ r2.1, r2.2)

/-! ## The full-buffer extraction (`extractSceneCommands`) -/

/-- Index of the first occurrence of `tag` inside `s`
(the position at which the global regex next matches). -/
def findTag (tag : List Char) : List Char → Option Nat
  | [] => if leadsWith tag [] then some 0 else none
  | c :: s' =>
    if leadsWith tag (c :: s') then some 0
    else (findTag tag s').map (· + 1)

/-- Fuel-driven loop of `extractSceneCommands`: each successful regex
match consumes at least one character, so `s.length + 1` fuel always
suffices. -/
def extractSCGo : Nat → List Char → List Json
  | 0, _ => []
  | fuel + 1, s =>
    match findTag openTagL s with
    | none => []
    | some i =>
      let rest := s.drop (i + openTagL.length)
      match findTag closeTagL rest with
      | none => []
      | some j =>
        let interior := rest.take j
        (match jsonParse (trimWs interior) with
         | some (Json.arr vs) => vs
         | some v => [v]
         | none => []) ++ extractSCGo fuel (rest.drop (j + closeTagL.length))

/-- Model of `extractSceneCommands`: repeatedly match
`<scene-commands>([\s\S]*?)<\/scene-commands>` (non-greedy, global),
`JSON.parse` the trimmed interior, spread a parsed array into the command
list, push any other parsed value directly, and silently skip parse
failures. -/
def extractSceneCommands (s : List Char) : List Json :=
  extractSCGo (s.length + 1) s

/-! ## Scene data model (`scene-types`) and the store (`scene-store`)

JS numbers carried by the scene document are modelled as rationals (the
store performs no arithmetic on them, so this is exact).  JS `Record`
maps are association lists: spread-insert replaces in place or appends,
rest-destructuring delete removes the key, preserving order. -/

/-- Scene numbers (JS number literals of the document, kept exact). -/
abbrev Num := Rat

/-- A 3-component vector `{x, y, z}`. -/
structure Vec3 where
  x : Num
  y : Num
  z : Num
deriving Repr, DecidableEq

/-- JS `Record<string, α>` as an insertion-ordered association list. -/
abbrev RecordMap (α : Type) := List (String × α)

/-- Lookup (`m[k]`). -/
def recGet (m : RecordMap α) (k : String) : Option α :=
  (m.find? (fun p => p.1 = k)).map (·.2)

/-- Spread-insert (`{...m, [k]: v}`): replace in place if the key is
present, append otherwise.  (JS records never hold duplicate keys, so
replacing the first occurrence is exact.) -/
def recSet : RecordMap α → String → α → RecordMap α
  | [], k, v => [(k, v)]
  | p :: m, k, v => if p.1 = k then (k, v) :: m else p :: recSet m k v

/-- Rest-destructuring delete (`const {[k]: _, ...rest} = m`). -/
def recDel (m : RecordMap α) (k : String) : RecordMap α :=
  m.filter (fun p => ¬ p.1 = k)

/-- Presence of a patch field wins over the existing optional field;
an absent patch field keeps the existing value (JS object spread on an
optional property). -/
def mergeOpt (u e : Option α) : Option α :=
  match u with
  | some v => some v
  | none => e

/-- The 14 geometry kinds. -/
inductive GeometryType where
  | box | roundedBox | sphere | cylinder | cone | torus | torusKnot
  | plane | circle | ring | dodecahedron | icosahedron | octahedron | tetrahedron
deriving Repr, DecidableEq

/-- The per-kind geometry parameter bag (all fields optional). -/
structure GeometryParams where
  width : Option Num := none
  height : Option Num := none
  depth : Option Num := none
  segments : Option Num := none
  radius : Option Num := none
  widthSegments : Option Num := none
  heightSegments : Option Num := none
  radiusTop : Option Num := none
  radiusBottom : Option Num := none
  radialSegments : Option Num := none
  tube : Option Num := none
  tubularSegments : Option Num := none
  p : Option Num := none
  q : Option Num := none
  innerRadius : Option Num := none
  outerRadius : Option Num := none
deriving Repr, DecidableEq

/-- A geometry descriptor: kind tag plus optional parameter bag. -/
structure GeometryConfig where
  type : GeometryType
  params : Option GeometryParams := none
deriving Repr, DecidableEq

/-- The 6 material kinds plus the shader-backed kind. -/
inductive MaterialType where
  | basic | standard | phong | lambert | toon | normal | shader
deriving Repr, DecidableEq

/-- Face side selection. -/
inductive SideType where
  | front | back | double
deriving Repr, DecidableEq

/-- Custom shader configuration (the liquid-gradient shader's tunables). -/
structure ShaderConfig where
  shaderType : Option String := none
  colors : Option (List String) := none
  speed : Option Num := none
  noiseScale : Option Num := none
  glowIntensity : Option Num := none
  glowColor : Option String := none
  warpScale : Option Num := none
  warpFrequency : Option Num := none
  warpAmplitude : Option Num := none
  bumpStrength : Option Num := none
  lightOrbitSpeed : Option Num := none
  lightOrbitRadius : Option Num := none
  specularPower : Option Num := none
  specularIntensity : Option Num := none
deriving Repr, DecidableEq

/-- A material descriptor. -/
structure MaterialConfig where
  type : MaterialType
  color : Option String := none
  wireframe : Option Bool := none
  metalness : Option Num := none
  roughness : Option Num := none
  emissive : Option String := none
  emissiveIntensity : Option Num := none
  transparent : Option Bool := none
  opacity : Option Num := none
  side : Option SideType := none
  shader : Option ShaderConfig := none
deriving Repr, DecidableEq

/-- The 5 animation kinds plus `none`. -/
inductive AnimationType where
  | rotate | bounce | float | pulse | orbit | noneAnim
deriving Repr, DecidableEq

/-- Rotation axis selection. -/
inductive AxisType where
  | x | y | z | all
deriving Repr, DecidableEq

/-- An animation directive. -/
structure AnimationConfig where
  type : AnimationType
  speed : Option Num := none
  axis : Option AxisType := none
  amplitude : Option Num := none
  center : Option Vec3 := none
  radius : Option Num := none
deriving Repr, DecidableEq

/-- A scene object record. -/
structure SceneObject where
  id : String
  name : Option String := none
  geometry : GeometryConfig
  material : MaterialConfig
  position : Option Vec3 := none
  rotation : Option Vec3 := none
  scale : Option Vec3 := none
  animation : Option AnimationConfig := none
  visible : Option Bool := none
  castShadow : Option Bool := none
  receiveShadow : Option Bool := none
deriving Repr, DecidableEq

/-- The 5 light kinds. -/
inductive LightType where
  | ambient | directional | point | spot | hemisphere
deriving Repr, DecidableEq

/-- A scene light record. -/
structure SceneLight where
  id : String
  type : LightType
  name : Option String := none
  color : Option String := none
  intensity : Option Num := none
  position : Option Vec3 := none
  target : Option Vec3 := none
  castShadow : Option Bool := none
  angle : Option Num := none
  penumbra : Option Num := none
  decay : Option Num := none
  distance : Option Num := none
  groundColor : Option String := none
deriving Repr, DecidableEq

/-- The camera configuration (single instance). -/
structure CameraConfig where
  position : Vec3
  lookAt : Option Vec3 := none
  fov : Option Num := none
  near : Option Num := none
  far : Option Num := none
  zoom : Option Num := none
  autoRotate : Option Bool := none
  autoRotateSpeed : Option Num := none
deriving Repr, DecidableEq

/-- Fog settings. -/
structure FogConfig where
  color : String
  near : Num
  far : Num
deriving Repr, DecidableEq

/-- The global scene configuration (background may be a color string or
the sentinel `"transparent"`). -/
structure SceneConfig where
  background : Option String := none
  fog : Option FogConfig := none
deriving Repr, DecidableEq

/-- The scene document. -/
structure SceneState where
  objects : RecordMap SceneObject
  lights : RecordMap SceneLight
  camera : CameraConfig
  config : SceneConfig
deriving Repr, DecidableEq

/-- A partial patch over a scene object (`Partial<Omit<SceneObject, "id">>`). -/
structure ObjectPatch where
  name : Option String := none
  geometry : Option GeometryConfig := none
  material : Option MaterialConfig := none
  position : Option Vec3 := none
  rotation : Option Vec3 := none
  scale : Option Vec3 := none
  animation : Option AnimationConfig := none
  visible : Option Bool := none
  castShadow : Option Bool := none
  receiveShadow : Option Bool := none
deriving Repr, DecidableEq

/-- A partial patch over a scene light (`Partial<Omit<SceneLight, "id">>`). -/
structure LightPatch where
  type : Option LightType := none
  name : Option String := none
  color : Option String := none
  intensity : Option Num := none
  position : Option Vec3 := none
  target : Option Vec3 := none
  castShadow : Option Bool := none
  angle : Option Num := none
  penumbra : Option Num := none
  decay : Option Num := none
  distance : Option Num := none
  groundColor : Option String := none
deriving Repr, DecidableEq

/-- A partial patch over the camera (`Partial<CameraConfig>`). -/
structure CameraPatch where
  position : Option Vec3 := none
  lookAt : Option Vec3 := none
  fov : Option Num := none
  near : Option Num := none
  far : Option Num := none
  zoom : Option Num := none
  autoRotate : Option Bool := none
  autoRotateSpeed : Option Num := none
deriving Repr, DecidableEq

/-- A partial patch over the scene configuration (`Partial<SceneConfig>`). -/
structure ConfigPatch where
  background : Option String := none
  fog : Option FogConfig := none
deriving Repr, DecidableEq

/-- JS `{...existing, ...updates}` for an object record. -/
def SceneObject.merge (e : SceneObject) (u : ObjectPatch) : SceneObject :=
  { id := e.id,
    name := mergeOpt u.name e.name,
    geometry := u.geometry.getD e.geometry,
    material := u.material.getD e.material,
    position := mergeOpt u.position e.position,
    rotation := mergeOpt u.rotation e.rotation,
    scale := mergeOpt u.scale e.scale,
    animation := mergeOpt u.animation e.animation,
    visible := mergeOpt u.visible e.visible,
    castShadow := mergeOpt u.castShadow e.castShadow,
    receiveShadow := mergeOpt u.receiveShadow e.receiveShadow }

/-- JS `{...existing, ...updates}` for a light record. -/
def SceneLight.merge (e : SceneLight) (u : LightPatch) : SceneLight :=
  { id := e.id,
    type := u.type.getD e.type,
    name := mergeOpt u.name e.name,
    color := mergeOpt u.color e.color,
    intensity := mergeOpt u.intensity e.intensity,
    position := mergeOpt u.position e.position,
    target := mergeOpt u.target e.target,
    castShadow := mergeOpt u.castShadow e.castShadow,
    angle := mergeOpt u.angle e.angle,
    penumbra := mergeOpt u.penumbra e.penumbra,
    decay := mergeOpt u.decay e.decay,
    distance := mergeOpt u.distance e.distance,
    groundColor := mergeOpt u.groundColor e.groundColor }

/-- JS `{...state.camera, ...config}`. -/
def CameraConfig.merge (e : CameraConfig) (u : CameraPatch) : CameraConfig :=
  { position := u.position.getD e.position,
    lookAt := mergeOpt u.lookAt e.lookAt,
    fov := mergeOpt u.fov e.fov,
    near := mergeOpt u.near e.near,
    far := mergeOpt u.far e.far,
    zoom := mergeOpt u.zoom e.zoom,
    autoRotate := mergeOpt u.autoRotate e.autoRotate,
    autoRotateSpeed := mergeOpt u.autoRotateSpeed e.autoRotateSpeed }

/-- JS `{...state.config, ...config}`. -/
def SceneConfig.merge (e : SceneConfig) (u : ConfigPatch) : SceneConfig :=
  { background := mergeOpt u.background e.background,
    fog := mergeOpt u.fog e.fog }

/-- The 10 scene command variants. -/
inductive SceneCommand where
  | addObject (object : SceneObject)
  | updateObject (id : String) (updates : ObjectPatch)
  | removeObject (id : String)
  | addLight (light : SceneLight)
  | updateLight (id : String) (updates : LightPatch)
  | removeLight (id : String)
  | setCamera (config : CameraPatch)
  | setConfig (config : ConfigPatch)
  | clearScene
  | resetScene
deriving Repr, DecidableEq

/-- The default camera of the store (`DEFAULT_CAMERA`). -/
def DEFAULT_CAMERA : CameraConfig :=
  { position := ⟨0, 0, 5⟩,
    lookAt := some ⟨0, 0, 0⟩,
    fov := some 75,
    near := some ((1 : Num) / 10),
    far := some 1000 }

/-- The default scene config (`DEFAULT_CONFIG`). -/
def DEFAULT_CONFIG : SceneConfig :=
  { background := some "transparent" }

/-- The default ambient light (`DEFAULT_AMBIENT_LIGHT`). -/
def DEFAULT_AMBIENT_LIGHT : SceneLight :=
  { id := "default-ambient",
    type := LightType.ambient,
    color := some "#ffffff",
    intensity := some ((1 : Num) / 2) }

/-- The liquid-gradient shader configuration (`LIQUID_GRADIENT_SHADER`). -/
def LIQUID_GRADIENT_SHADER : ShaderConfig :=
  { shaderType := some "liquidGradient",
    colors := some ["#000005", "#001028", "#0055aa", "#00bbff"],
    speed := some ((2 : Num) / 5),
    noiseScale := some ((11 : Num) / 5),
    glowIntensity := some ((7 : Num) / 10),
    glowColor := some "#00aaff" }

/-- The initial liquid-gradient plane (`INITIAL_GRADIENT_PLANE`). -/
def INITIAL_GRADIENT_PLANE : SceneObject :=
  { id := "liquid-gradient",
    name := some "Liquid Gradient Background",
    geometry := { type := GeometryType.plane,
                  params := some { width := some 8, height := some 8 } },
    material := { type := MaterialType.shader,
                  shader := some LIQUID_GRADIENT_SHADER },
    position := some ⟨0, 0, 0⟩,
    rotation := some ⟨0, 0, 0⟩,
    scale := some ⟨1, 1, 1⟩ }

/-- The fixed initial snapshot of the store (`INITIAL_STATE`). -/
def INITIAL_STATE : SceneState :=
  { objects := [("liquid-gradient", INITIAL_GRADIENT_PLANE)],
    lights := [("default-ambient", DEFAULT_AMBIENT_LIGHT)],
    camera := DEFAULT_CAMERA,
    config := DEFAULT_CONFIG }

/-- The store's command dispatcher `applyCommand`, routing each command to
its action; each action mirrors the corresponding zustand `set` update
(a partial state merged over the full state). -/
def applyCommand (s : SceneState) : SceneCommand → SceneState
  | SceneCommand.addObject o =>
    { s with objects := recSet s.objects o.id o }
  | SceneCommand.updateObject id u =>
    match recGet s.objects id with
    | none => s
    | some e => { s with objects := recSet s.objects id (e.merge u) }
  | SceneCommand.removeObject id =>
    { s with objects := recDel s.objects id }
  | SceneCommand.addLight l =>
    { s with lights := recSet s.lights l.id l }
  | SceneCommand.updateLight id u =>
    match recGet s.lights id with
    | none => s
    | some e => { s with lights := recSet s.lights id (e.merge u) }
  | SceneCommand.removeLight id =>
    { s with lights := recDel s.lights id }
  | SceneCommand.setCamera u =>
    { s with camera := s.camera.merge u }
  | SceneCommand.setConfig u =>
    { s with config := s.config.merge u }
  | SceneCommand.clearScene =>
    { s with objects := [],
             lights := [("default-ambient", DEFAULT_AMBIENT_LIGHT)] }
  | SceneCommand.resetScene => INITIAL_STATE

/-! ## Renderer synchronization (`ThreeBackground`) -/

/-- The per-entity animation clock record (`AnimationState` in the source:
`{time, initialPosition, initialScale}`). -/
structure AnimationState where
  time : Num
  initialPosition : Vec3
  initialScale : Vec3
deriving Repr, DecidableEq

/-- A live mesh as far as disposal is concerned: `mesh.material` is either
a single material (`materialArr = none`) or an array of materials
(`materialArr = some k`).  Meshes built by this reconciler always carry a
single material. -/
structure LiveMesh where
  materialArr : Option Nat := none
deriving Repr, DecidableEq

/-- The kind of engine resource released by a `dispose()` call. -/
inductive ResKind where
  | geometryRes | materialRes
deriving Repr, DecidableEq

/-- The `dispose()` calls issued while tearing one mesh down:
`mesh.geometry.dispose()` followed by one `dispose()` per material. -/
def disposeEventsOf (id : String) (m : LiveMesh) : List (String × ResKind) :=
  (id, ResKind.geometryRes) ::
    (match m.materialArr with
     | none => [(id, ResKind.materialRes)]
     | some k => List.replicate k (id, ResKind.materialRes))

/-- The removal loop of the objects-sync effect: every live mesh whose id
is absent from the document is removed from the scene, its geometry and
material(s) disposed, and its entries dropped from the live-mesh map and
from the animation-clock map.  (The subsequent add/update phase of the
effect only touches ids present in the document, so it cannot resurrect a
removed id.)  Returns the dispose calls in loop order, the surviving
live-mesh map, and the surviving animation-clock map. -/
def syncRemoveObjects (objects : RecordMap SceneObject) (live : RecordMap LiveMesh)
    (anim : RecordMap AnimationState) :
    List (String × ResKind) × RecordMap LiveMesh × RecordMap AnimationState :=
  ((live.filter (fun p => (recGet objects p.1).isNone)).flatMap
      (fun p => disposeEventsOf p.1 p.2),
   live.filter (fun p => (recGet objects p.1).isSome),
   anim.filter (fun p => ¬ ((recGet live p.1).isSome ∧ (recGet objects p.1).isNone)))

/-- A live `THREE.Light` as far as the lights-sync effect observes it.
`angleL = none` stands for the engine default spot angle (π/3, left
symbolic); all other engine defaults are representable and stored
explicitly.  Fields irrelevant to every claim (shadow map sizes, display
name) are omitted. -/
structure LiveLight where
  kind : LightType
  colorL : String
  intensityL : Num
  positionL : Vec3
  castShadowL : Bool
  angleL : Option Num := none
  penumbraL : Option Num := none
  decayL : Option Num := none
  distanceL : Option Num := none
  groundColorL : Option String := none
deriving Repr, DecidableEq

/-- The light factory `createLight`: build a live light from a document
record, defaulting color to white and intensity to 1, and applying the
kind-specific constructor parameters. -/
def createLightL (cfg : SceneLight) : LiveLight :=
  let color := cfg.color.getD "#ffffff"
  let intensity := cfg.intensity.getD 1
  match cfg.type with
  | LightType.ambient =>
    { kind := LightType.ambient, colorL := color, intensityL := intensity,
      positionL := ⟨0, 0, 0⟩, castShadowL := false }
  | LightType.directional =>
    { kind := LightType.directional, colorL := color, intensityL := intensity,
      positionL := cfg.position.getD ⟨0, 0, 0⟩,
      castShadowL := cfg.castShadow.getD false }
  | LightType.point =>
    { kind := LightType.point, colorL := color, intensityL := intensity,
      positionL := cfg.position.getD ⟨0, 0, 0⟩,
      castShadowL := cfg.castShadow.getD false,
      decayL := some (cfg.decay.getD 2),
      distanceL := some (cfg.distance.getD 0) }
  | LightType.spot =>
    { kind := LightType.spot, colorL := color, intensityL := intensity,
      positionL := cfg.position.getD ⟨0, 0, 0⟩,
      castShadowL := cfg.castShadow.getD false,
      angleL := cfg.angle,
      penumbraL := some (cfg.penumbra.getD 0),
      decayL := some (cfg.decay.getD 2),
      distanceL := some (cfg.distance.getD 0) }
  | LightType.hemisphere =>
    { kind := LightType.hemisphere, colorL := color, intensityL := intensity,
      positionL := ⟨0, 0, 0⟩, castShadowL := false,
      groundColorL := some (cfg.groundColor.getD "#444444") }

/-- The in-place update branch of the lights-sync effect: only color (when
provided), intensity (when defined) and position (when provided) are
written onto the existing live light; its kind and kind-specific
parameters are never touched and the light is never rebuilt. -/
def updateLightL (old : LiveLight) (cfg : SceneLight) : LiveLight :=
  { old with
    colorL := cfg.color.getD old.colorL,
    intensityL := cfg.intensity.getD old.intensityL,
    positionL := cfg.position.getD old.positionL }

/-- The lights-sync effect: first the removal loop (each live light whose
id left the document is removed and disposed — one `dispose()` per
light), then `Object.values(lights)` in order: ids not yet live are
created and appended, ids already live are updated in place.  Returns the
disposed ids in loop order and the resulting live-light map. -/
def syncLights (lights : RecordMap SceneLight) (live : RecordMap LiveLight) :
    List String × RecordMap LiveLight :=
  let removedIds := (live.filter (fun p => (recGet lights p.1).isNone)).map (·.1)
  let live1 := live.filter (fun p => (recGet lights p.1).isSome)
  let live2 := lights.foldl
    (fun acc p =>
      match recGet acc p.1 with
      | none => acc ++ [(p.1, createLightL p.2)]
      | some old => recSet acc p.1 (updateLightL old p.2))
    live1
  (removedIds, live2)

/-! ## The animation procedure runner (`applyAnimation`)

Transcendental functions of the source (`Math.sin`, `Math.cos`) are taken
as parameters `sinF`, `cosF`: every property proved here holds for an
arbitrary interpretation of them, and arithmetic on the animation clock is
exact (rational). -/

/-- A mesh transform (position, rotation, scale). -/
structure Transform where
  positionT : Vec3
  rotationT : Vec3
  scaleT : Vec3
deriving Repr, DecidableEq

/-- One frame of `applyAnimation`: advance the clock by
`deltaTime * speed`, then dispatch on the animation type.  `rotate`
accumulates raw per-frame deltas onto the current rotation; `bounce`,
`float`, `pulse` and `orbit` overwrite their target components as pure
functions of the new clock value and the recorded baseline. -/
def applyAnimation (sinF cosF : Num → Num) (cfg : AnimationConfig)
    (mesh : Transform) (st : AnimationState) (deltaTime : Num) :
    Transform × AnimationState :=
  let speed := cfg.speed.getD 1
  let t' := st.time + deltaTime * speed
  let st' := { st with time := t' }
  match cfg.type with
  | AnimationType.rotate =>
    let rotSpeed := (1 : Num) / 2 * speed
    let rx := if cfg.axis = some AxisType.x ∨ cfg.axis = some AxisType.all then
        mesh.rotationT.x + rotSpeed * deltaTime else mesh.rotationT.x
    let ry := if cfg.axis = some AxisType.y ∨ cfg.axis = some AxisType.all ∨ cfg.axis = none then
        mesh.rotationT.y + rotSpeed * deltaTime else mesh.rotationT.y
    let rz := if cfg.axis = some AxisType.z ∨ cfg.axis = some AxisType.all then
        mesh.rotationT.z + rotSpeed * deltaTime else mesh.rotationT.z
    ({ mesh with rotationT := ⟨rx, ry, rz⟩ }, st')
  | AnimationType.bounce =>
    let amplitude := cfg.amplitude.getD ((1 : Num) / 2)
    ({ mesh with positionT :=
        { mesh.positionT with y := st.initialPosition.y + |sinF (t' * 2)| * amplitude } }, st')
  | AnimationType.float =>
    let amplitude := cfg.amplitude.getD ((3 : Num) / 10)
    ({ mesh with positionT :=
        { mesh.positionT with y := st.initialPosition.y + sinF t' * amplitude } }, st')
  | AnimationType.pulse =>
    let amplitude := cfg.amplitude.getD ((1 : Num) / 5)
    let scl := 1 + sinF (t' * 2) * amplitude
    ({ mesh with scaleT :=
        ⟨st.initialScale.x * scl, st.initialScale.y * scl, st.initialScale.z * scl⟩ }, st')
  | AnimationType.orbit =>
    let radius := cfg.radius.getD 2
    let center := cfg.center.getD ⟨0, 0, 0⟩
    ({ mesh with positionT :=
        { mesh.positionT with
          x := center.x + cosF t' * radius,
          z := center.z + sinF t' * radius } }, st')
  | AnimationType.noneAnim => (mesh, st')

/-- Run `applyAnimation` over a sequence of frame deltas. -/
def runSteps (sinF cosF : Num → Num) (cfg : AnimationConfig) :
    Transform × AnimationState → List Num → Transform × AnimationState
  | p, [] => p
  | p, d :: ds =>
    runSteps sinF cosF cfg (applyAnimation sinF cosF cfg p.1 p.2 d) ds

/-- The demonstration object of the shallow-merge scenario: a sphere with
a standard material, id `"a"`. -/
def demoSphere : SceneObject :=
  { id := "a",
    geometry := { type := GeometryType.sphere },
    material := { type := MaterialType.standard } }

/-! ## The reference scanner machine

`scanTok` replays exactly the brace/string tracking of the in-block,
non-tag branches of the extractor loop (depth, in-string flag, pending
escape), without the capture buffer and without emission.  It is used to
state which strings the extractor treats as one complete object. -/

/-- The machine flags tracked by the scanner: brace depth, in-string
flag, pending escape. -/
structure ScanSt where
  depth : Int
  inStr : Bool
  esc : Bool
deriving Repr, DecidableEq

/-- The initial (and between-objects) scanner state. -/
def initScan : ScanSt := ⟨0, false, false⟩

/-- One character of brace/string tracking, in source branch order. -/
def scanTok (m : ScanSt) (c : Char) : ScanSt :=
  if m.esc then ⟨m.depth, m.inStr, false⟩
  else if c = bslash ∧ m.inStr then ⟨m.depth, m.inStr, true⟩
  else if c = quoteC then ⟨m.depth, !m.inStr, false⟩
  else if m.inStr = false ∧ c = lbrace then ⟨m.depth + 1, m.inStr, false⟩
  else if m.inStr = false ∧ c = rbrace then ⟨m.depth - 1, m.inStr, false⟩
  else m

/-- Run the scanner over a string. -/
def scanFold (m : ScanSt) (l : List Char) : ScanSt := l.foldl scanTok m

/-- A string the extractor treats as exactly one object capture: it
starts with `{`, the scanner returns to the clean state exactly at its
end, and stays at depth ≥ 1 at every interior position. -/
def Objish (o : List Char) : Prop :=
  o.head? = some lbrace ∧ scanFold initScan o = initScan ∧
  ∀ k, k < o.length → 0 < k → 1 ≤ (scanFold initScan (o.take k)).depth

/-- An object string with no nested braces: every interior position is at
depth exactly 1. -/
def FlatInterior (o : List Char) : Prop :=
  ∀ k, k < o.length → 0 < k → (scanFold initScan (o.take k)).depth = 1

/-- Characters that may separate adjacent objects inside a block without
affecting the scanner (whitespace, commas, array brackets — all inert at
depth 0 outside strings). -/
def sepChars : List Char :=
  [' ', Char.ofNat 9, Char.ofNat 10, Char.ofNat 13, ',', lbrack, rbrack]

/-- A well-formed block body: object strings interleaved with separator
runs. -/
inductive BodyChunks : List Char → List (List Char) → Prop where
  | nil (w : List Char) : (∀ c ∈ w, c ∈ sepChars) → BodyChunks w []
  | cons (w o b : List Char) (os : List (List Char)) :
      (∀ c ∈ w, c ∈ sepChars) → Objish o → BodyChunks b os →
      BodyChunks (w ++ (o ++ b)) (o :: os)

/-- A parser state positioned inside a command block. -/
def inBlockSt (B : List Char) (i : Nat) (d : Int) (s e : Bool) (jb : List Char) :
    ParserState :=
  { buffer := B, processedIndex := i, insideBlock := true, jsonBuffer := jb,
    braceDepth := d, inString := s, escapeNext := e }

/-- Basic well-formedness of a parser state: the cursor never passes the
end of the buffer. -/
def wfState (st : ParserState) : Prop :=
  st.processedIndex ≤ st.buffer.length

/-- Concrete live-mesh map used to witness the disposal-completeness
theorem: two single-material meshes. -/
def c8LiveDemo : RecordMap LiveMesh :=
  [("a", { materialArr := none }), ("b", { materialArr := none })]

/-- Concrete animation-clock map used to witness the
disposal-completeness theorem. -/
def c8AnimDemo : RecordMap AnimationState :=
  [("a", { time := 0, initialPosition := ⟨0, 0, 0⟩, initialScale := ⟨1, 1, 1⟩ })]

/-- Concrete object used to witness the streaming equivalence:
`\x7b"action":"clearScene"\x7d`. -/
def c1obj : List Char := "\x7b\"action\":\"clearScene\"\x7d".data

/-- The witness block interior: the single-command array around `c1obj`. -/
def c1body : List Char := "[".data ++ (c1obj ++ "]".data)

/-- The parsed command list of the witness block. -/
def c1vs : List Json := [Json.obj [("action".data, Json.str "clearScene".data)]]


/-- A brace-balanced but malformed fragment: `\x7baction\x7d` (bare word,
not valid JSON). -/
def c3bad : List Char := "\x7baction\x7d".data

/-- A block interior holding the malformed fragment and then a well-formed
command object. -/
def c3body : List Char := "[".data ++ (c3bad ++ (",".data ++ (c1obj ++ "]".data)))


/-! ## Record-map lemmas -/

theorem recGet_recSet_self (m : RecordMap α) (k : String) (v : α) :
    recGet (recSet m k v) k = some v := by
  induction m with
  | nil => simp [recSet, recGet, List.find?]
  | cons p m ih =>
    by_cases h : p.1 = k
    · simp [recSet, h, recGet, List.find?]
    · simp only [recSet, h, if_false]
      simpa [recGet, List.find?, h] using ih

theorem recGet_recSet_ne (m : RecordMap α) (k k' : String) (v : α) (h : k' ≠ k) :
    recGet (recSet m k v) k' = recGet m k' := by
  induction m with
  | nil => simp [recSet, recGet, List.find?, Ne.symm h]
  | cons p m ih =>
    by_cases hp : p.1 = k
    · have hk' : ¬ (k = k') := fun he => h he.symm
      have hp' : ¬ (p.1 = k') := fun he => h (hp.symm.trans he).symm
      simp [recSet, hp, recGet, List.find?, hk', hp']
    · by_cases hp' : p.1 = k'
      · simp [recSet, hp, recGet, List.find?, hp', h]
      · simp only [recSet, hp, if_false]
        simpa [recGet, List.find?, hp'] using ih

theorem recDel_of_absent (m : RecordMap α) (k : String) (h : recGet m k = none) :
    recDel m k = m := by
  induction m with
  | nil => rfl
  | cons p m ih =>
    simp only [recGet, List.find?] at h
    by_cases hp : p.1 = k
    · simp [hp] at h
    · simp only [decide_eq_false hp] at h
      simp only [recDel, List.filter, decide_not, decide_eq_false hp]
      have := ih (by simpa [recGet] using h)
      simpa [recDel] using this

/-! ## Claims about the scene document store -/

/-- C4: applying `resetScene` to any document yields exactly the fixed
initial snapshot: the liquid-gradient plane as the only object, the
default ambient light as the only light, the default camera at position
`{0,0,5}`, and the default transparent-background config. -/
theorem c4_resetScene_initial_snapshot (D : SceneState) :
    applyCommand D SceneCommand.resetScene = INITIAL_STATE ∧
    INITIAL_STATE.objects = [("liquid-gradient", INITIAL_GRADIENT_PLANE)] ∧
    INITIAL_STATE.lights = [("default-ambient", DEFAULT_AMBIENT_LIGHT)] ∧
    INITIAL_STATE.camera.position = ⟨0, 0, 5⟩ ∧
    INITIAL_STATE.config.background = some "transparent" :=
  ⟨rfl, rfl, rfl, rfl, rfl⟩

/-- C5: updates and removals addressed to an id that is absent from the
relevant map are silent no-ops: the objects map (resp. lights map) is
returned unchanged, never an error. -/
theorem c5_unknown_id_silent_noop (D : SceneState) (k : String) :
    (recGet D.objects k = none →
      ∀ u : ObjectPatch,
        (applyCommand D (SceneCommand.updateObject k u)).objects = D.objects) ∧
    (recGet D.objects k = none →
      (applyCommand D (SceneCommand.removeObject k)).objects = D.objects) ∧
    (recGet D.lights k = none →
      ∀ u : LightPatch,
        (applyCommand D (SceneCommand.updateLight k u)).lights = D.lights) ∧
    (recGet D.lights k = none →
      (applyCommand D (SceneCommand.removeLight k)).lights = D.lights) := by
  refine ⟨fun h u => ?_, fun h => ?_, fun h u => ?_, fun h => ?_⟩
  · simp [applyCommand, h]
  · simp [applyCommand, recDel_of_absent _ _ h]
  · simp [applyCommand, h]
  · simp [applyCommand, recDel_of_absent _ _ h]

/-- Witness for C5 at a concrete document and id. -/
theorem c5_unknown_id_silent_noop_witness :
    (applyCommand INITIAL_STATE (SceneCommand.updateObject "ghost" {})).objects
        = INITIAL_STATE.objects ∧
    (applyCommand INITIAL_STATE (SceneCommand.removeObject "ghost")).objects
        = INITIAL_STATE.objects ∧
    (applyCommand INITIAL_STATE (SceneCommand.updateLight "ghost" {})).lights
        = INITIAL_STATE.lights ∧
    (applyCommand INITIAL_STATE (SceneCommand.removeLight "ghost")).lights
        = INITIAL_STATE.lights := by
  obtain ⟨h1, h2, h3, h4⟩ := c5_unknown_id_silent_noop INITIAL_STATE "ghost"
  exact ⟨h1 (by decide) {}, h2 (by decide), h3 (by decide) {}, h4 (by decide)⟩

/-- C6: `clearScene` empties the objects map and resets the lights map to
exactly the single default ambient light (id `"default-ambient"`, color
`"#ffffff"`, intensity 0.5), leaving camera and config untouched. -/
theorem c6_clearScene (D : SceneState) :
    applyCommand D SceneCommand.clearScene =
      { objects := [],
        lights := [("default-ambient", DEFAULT_AMBIENT_LIGHT)],
        camera := D.camera,
        config := D.config } ∧
    DEFAULT_AMBIENT_LIGHT.id = "default-ambient" ∧
    DEFAULT_AMBIENT_LIGHT.color = some "#ffffff" ∧
    DEFAULT_AMBIENT_LIGHT.intensity = some ((1 : Num) / 2) :=
  ⟨rfl, rfl, rfl, rfl⟩

/-- C7: patches shallow-merge at the top level.  Two camera patches
`{fov:50}` then `{zoom:2}` leave a camera with both fields set and the
prior position retained; adding the demonstration sphere and patching its
position yields the same object with only the position changed (geometry
and material intact); a patch supplying only a material replaces the
entire material object, dropping its other fields. -/
theorem c7_shallow_merge (D : SceneState) :
    ((applyCommand (applyCommand D (SceneCommand.setCamera { fov := some 50 }))
        (SceneCommand.setCamera { zoom := some 2 })).camera
      = { D.camera with fov := some 50, zoom := some 2 }) ∧
    (recGet (applyCommand (applyCommand D (SceneCommand.addObject demoSphere))
        (SceneCommand.updateObject "a" { position := some ⟨2, 0, 0⟩ })).objects "a"
      = some { demoSphere with position := some ⟨2, 0, 0⟩ }) ∧
    (∀ (id : String) (e : SceneObject) (m' : MaterialConfig),
      recGet D.objects id = some e →
      recGet (applyCommand D
          (SceneCommand.updateObject id { material := some m' })).objects id
        = some { e with material := m' }) := by
  refine ⟨?_, ?_, fun id e m' he => ?_⟩
  · simp [applyCommand, CameraConfig.merge, mergeOpt]
  · have hid : demoSphere.id = "a" := rfl
    simp only [applyCommand, hid, recGet_recSet_self]
    rfl
  · simp only [applyCommand, he, recGet_recSet_self]
    rfl

/-- Witness for C7 at a concrete document, id and material. -/
theorem c7_shallow_merge_witness :
    recGet (applyCommand INITIAL_STATE
        (SceneCommand.updateObject "liquid-gradient"
          { material := some { type := MaterialType.basic, color := some "#ffffff" } })).objects
        "liquid-gradient"
      = some { INITIAL_GRADIENT_PLANE with
               material := { type := MaterialType.basic, color := some "#ffffff" } } :=
  (c7_shallow_merge INITIAL_STATE).2.2 "liquid-gradient" INITIAL_GRADIENT_PLANE
    { type := MaterialType.basic, color := some "#ffffff" } rfl

/-! ## Animation lemmas -/

theorem applyAnimation_absorb (sinF cosF : Num → Num) (cfg : AnimationConfig)
    (htype : cfg.type = AnimationType.bounce ∨ cfg.type = AnimationType.float ∨
      cfg.type = AnimationType.pulse ∨ cfg.type = AnimationType.orbit)
    (m : Transform) (st : AnimationState) (d e : Num) :
    applyAnimation sinF cosF cfg
      (applyAnimation sinF cosF cfg m st d).1
      (applyAnimation sinF cosF cfg m st d).2 e
    = applyAnimation sinF cosF cfg m st (d + e) := by
  have ht : st.time + d * cfg.speed.getD 1 + e * cfg.speed.getD 1
      = st.time + (d + e) * cfg.speed.getD 1 := by ring
  rcases htype with h | h | h | h
  · simp only [applyAnimation, h]
    rw [ht]
  · simp only [applyAnimation, h]
    rw [ht]
  · simp only [applyAnimation, h]
    rw [ht]
  · simp only [applyAnimation, h]
    rw [ht]

theorem runSteps_collapse (sinF cosF : Num → Num) (cfg : AnimationConfig)
    (htype : cfg.type = AnimationType.bounce ∨ cfg.type = AnimationType.float ∨
      cfg.type = AnimationType.pulse ∨ cfg.type = AnimationType.orbit) :
    ∀ (ds : List Num) (d : Num) (m : Transform) (st : AnimationState),
      runSteps sinF cosF cfg (m, st) (d :: ds)
        = runSteps sinF cosF cfg (m, st) [d + ds.sum] := by
  intro ds
  induction ds with
  | nil => intro d m st; simp [List.sum_nil]
  | cons e ds ih =>
    intro d m st
    have step1 := applyAnimation_absorb sinF cosF cfg htype m st d (e + ds.sum)
    calc runSteps sinF cosF cfg (m, st) (d :: e :: ds)
        = runSteps sinF cosF cfg (applyAnimation sinF cosF cfg m st d) (e :: ds) := rfl
      _ = runSteps sinF cosF cfg (applyAnimation sinF cosF cfg m st d) [e + ds.sum] := by
          obtain ⟨m1, st1⟩ := applyAnimation sinF cosF cfg m st d
          exact ih e m1 st1
      _ = runSteps sinF cosF cfg (m, st) [d + (e :: ds).sum] := by
          simp only [runSteps, List.sum_cons]
          rw [step1]

/-- C9: for the float, bounce, pulse and orbit procedures (any speed,
baseline and tuning parameters), one large frame step of duration `t`
produces exactly the same transform and clock as any sequence of smaller
steps summing to `t` — the transform is a pure function of the
accumulated clock and the baseline (exact in rational arithmetic, for an
arbitrary interpretation of `sin`/`cos`).  Bounce sets
`y = baseline_y + |sin(2·t)|·amplitude`.  Rotate instead accumulates a
per-frame delta onto the current rotation. -/
theorem c9_animation_absolute_time (sinF cosF : Num → Num)
    (speed : Option Num) (axis : Option AxisType) (amplitude : Option Num)
    (center : Option Vec3) (radius : Option Num)
    (d : Num) (ds : List Num) (m : Transform) (st : AnimationState) :
    (runSteps sinF cosF ⟨AnimationType.bounce, speed, axis, amplitude, center, radius⟩
        (m, st) (d :: ds)
      = runSteps sinF cosF ⟨AnimationType.bounce, speed, axis, amplitude, center, radius⟩
        (m, st) [d + ds.sum]) ∧
    (runSteps sinF cosF ⟨AnimationType.float, speed, axis, amplitude, center, radius⟩
        (m, st) (d :: ds)
      = runSteps sinF cosF ⟨AnimationType.float, speed, axis, amplitude, center, radius⟩
        (m, st) [d + ds.sum]) ∧
    (runSteps sinF cosF ⟨AnimationType.pulse, speed, axis, amplitude, center, radius⟩
        (m, st) (d :: ds)
      = runSteps sinF cosF ⟨AnimationType.pulse, speed, axis, amplitude, center, radius⟩
        (m, st) [d + ds.sum]) ∧
    (runSteps sinF cosF ⟨AnimationType.orbit, speed, axis, amplitude, center, radius⟩
        (m, st) (d :: ds)
      = runSteps sinF cosF ⟨AnimationType.orbit, speed, axis, amplitude, center, radius⟩
        (m, st) [d + ds.sum]) ∧
    ((applyAnimation sinF cosF ⟨AnimationType.bounce, speed, axis, amplitude, center, radius⟩
        m st d).1.positionT.y
      = st.initialPosition.y
        + |sinF (2 * (st.time + d * speed.getD 1))| * amplitude.getD ((1 : Num) / 2)) ∧
    ((applyAnimation sinF cosF ⟨AnimationType.rotate, speed, some AxisType.y, amplitude, center, radius⟩
        m st d).1.rotationT.y
      = m.rotationT.y + ((1 : Num) / 2 * speed.getD 1) * d) := by
  refine ⟨?_, ?_, ?_, ?_, ?_, ?_⟩
  · exact runSteps_collapse sinF cosF _ (Or.inl rfl) ds d m st
  · exact runSteps_collapse sinF cosF _ (Or.inr (Or.inl rfl)) ds d m st
  · exact runSteps_collapse sinF cosF _ (Or.inr (Or.inr (Or.inl rfl))) ds d m st
  · exact runSteps_collapse sinF cosF _ (Or.inr (Or.inr (Or.inr rfl))) ds d m st
  · simp [applyAnimation, mul_comm]
  · simp [applyAnimation]

/-! ## Reconciler lemmas -/

theorem recGet_filter_keyPred_true (m : RecordMap α) (k : String) (q : String → Bool)
    (hq : q k = true) : recGet (m.filter (fun p => q p.1)) k = recGet m k := by
  induction m with
  | nil => rfl
  | cons p m ih =>
    by_cases hp : p.1 = k
    · simp [List.filter, hp, hq, recGet, List.find?]
    · by_cases hqp : q p.1
      · simpa [List.filter, hqp, recGet, List.find?, hp] using ih
      · simp only [List.filter, hqp, Bool.false_eq_true, if_false]
        rw [ih]
        simp [recGet, List.find?, hp]

theorem recGet_filter_keyPred_false (m : RecordMap α) (k : String) (q : String → Bool)
    (hq : q k = false) : recGet (m.filter (fun p => q p.1)) k = none := by
  induction m with
  | nil => rfl
  | cons p m ih =>
    by_cases hp : p.1 = k
    · have hqp : q p.1 = false := hp ▸ hq
      simpa [List.filter_cons, hqp] using ih
    · by_cases hqp : q p.1
      · simp only [List.filter_cons, hqp, if_pos]
        simpa [recGet, List.find?, hp] using ih
      · simpa [List.filter_cons, hqp] using ih

theorem recGet_append_left (m l : RecordMap α) (k : String) (v : α)
    (h : recGet m k = some v) : recGet (m ++ l) k = some v := by
  induction m with
  | nil => simp [recGet, List.find?] at h
  | cons p m ih =>
    by_cases hp : p.1 = k
    · subst hp
      simp [recGet, List.find?] at h ⊢
      exact h
    · simp only [recGet, List.find?, decide_eq_false hp, List.cons_append] at h ⊢
      have := ih (by simpa [recGet] using h)
      simpa [recGet] using this

theorem flatMap_dispose_length (l : RecordMap LiveMesh)
    (h : ∀ p ∈ l, p.2.materialArr = none) :
    (l.flatMap (fun p => disposeEventsOf p.1 p.2)).length = 2 * l.length := by
  induction l with
  | nil => rfl
  | cons p l ih =>
    have hp := h p (List.mem_cons_self p l)
    have ihl := ih (fun q hq => h q (List.mem_cons_of_mem p hq))
    rw [List.flatMap_cons, List.length_append, ihl]
    have hlen : (disposeEventsOf p.1 p.2).length = 2 := by
      simp [disposeEventsOf, hp]
    rw [hlen]
    simp only [List.length_cons]
    omega

/-! ## Claims about the reconciler -/

/-- C8 as stated is false at a live set holding one single-material mesh
removed from the document: the loop issues one geometry `dispose()` and
one material `dispose()`, i.e. 2 dispose calls for N = 1 removed object,
not 1. -/
theorem c8_counterexample :
    (([(("a" : String), ({ materialArr := none } : LiveMesh))].filter
        (fun p => (recGet ([] : RecordMap SceneObject) p.1).isNone)).length = 1) ∧
    ((syncRemoveObjects [] [("a", { materialArr := none })] []).1).length = 2 ∧
    (2 : Nat) ≠ 1 := by
  refine ⟨rfl, rfl, by decide⟩

/-- C8 amended: when N objects present in the live set are removed from
the document, the removal loop issues exactly 2·N dispose calls against
the render-engine interface (one for the geometry and one for the single
material of each removed mesh), and leaves zero residual entries for
those ids in both the live-entity map and the animation-clock map. -/
theorem c8_disposal_completeness (objects : RecordMap SceneObject)
    (live : RecordMap LiveMesh) (anim : RecordMap AnimationState)
    (hsingle : ∀ p ∈ live, p.2.materialArr = none) :
    ((syncRemoveObjects objects live anim).1).length
      = 2 * (live.filter (fun p => (recGet objects p.1).isNone)).length ∧
    (∀ id : String, (recGet live id).isSome → recGet objects id = none →
      recGet (syncRemoveObjects objects live anim).2.1 id = none ∧
      recGet (syncRemoveObjects objects live anim).2.2 id = none) := by
  constructor
  · exact flatMap_dispose_length _
      (fun p hp => hsingle p (List.mem_filter.mp hp).1)
  · intro id hlive hobj
    constructor
    · exact recGet_filter_keyPred_false live id
        (fun k => (recGet objects k).isSome) (by simp [hobj])
    · exact recGet_filter_keyPred_false anim id
        (fun k => decide (¬ ((recGet live k).isSome ∧ (recGet objects k).isNone)))
        (by simp [hobj, hlive])

/-- Witness for C8 (amended) at a concrete live set of two single-material
meshes, both removed (the document is empty). -/
theorem c8_disposal_completeness_witness :
    ((syncRemoveObjects [] c8LiveDemo c8AnimDemo).1).length
      = 2 * (c8LiveDemo.filter
          (fun p => (recGet ([] : RecordMap SceneObject) p.1).isNone)).length ∧
    recGet (syncRemoveObjects [] c8LiveDemo c8AnimDemo).2.1 "a" = none ∧
    recGet (syncRemoveObjects [] c8LiveDemo c8AnimDemo).2.2 "a" = none := by
  obtain ⟨h1, h2⟩ := c8_disposal_completeness [] c8LiveDemo c8AnimDemo (by decide)
  obtain ⟨h3, h4⟩ := h2 "a" (by decide) (by decide)
  exact ⟨h1, h3, h4⟩

theorem syncLights_fold_preserves (P : LiveLight → Prop)
    (hP : ∀ ll cfg, P ll → P (updateLightL ll cfg))
    (lights : RecordMap SceneLight) (id : String) :
    ∀ acc : RecordMap LiveLight, (∃ ll, recGet acc id = some ll ∧ P ll) →
      ∃ ll', recGet (lights.foldl
          (fun acc p =>
            match recGet acc p.1 with
            | none => acc ++ [(p.1, createLightL p.2)]
            | some old => recSet acc p.1 (updateLightL old p.2)) acc) id = some ll'
        ∧ P ll' := by
  induction lights with
  | nil => intro acc h; exact h
  | cons q lights ih =>
    rintro acc ⟨ll, hget, hp⟩
    rw [List.foldl_cons]
    apply ih
    by_cases hq : q.1 = id
    · subst hq
      simp only [hget]
      exact ⟨updateLightL ll q.2, recGet_recSet_self _ _ _, hP ll q.2 hp⟩
    · cases hrec : recGet acc q.1 with
      | none =>
        simp only [hrec]
        exact ⟨ll, recGet_append_left _ _ _ _ hget, hp⟩
      | some old =>
        simp only [hrec]
        refine ⟨ll, ?_, hp⟩
        rw [recGet_recSet_ne _ _ _ _ (fun he => hq he.symm)]
        exact hget

/-- C10: for a light that is already live, an `updateLight` that changes
the light's `type` (or kind-specific parameters) is recorded in the scene
document, but the lights-sync effect neither disposes nor rebuilds the
existing live light and its in-place update writes only color, intensity
and position — so the live light's kind and kind-specific parameters are
unchanged. -/
theorem c10_live_light_update_scope
    (D : SceneState) (live : RecordMap LiveLight) (id : String)
    (L : SceneLight) (LL : LiveLight) (u : LightPatch)
    (hdoc : recGet D.lights id = some L)
    (hlive : recGet live id = some LL) :
    (recGet (applyCommand D (SceneCommand.updateLight id u)).lights id
        = some (L.merge u)) ∧
    ((L.merge u).type = u.type.getD L.type) ∧
    (id ∉ (syncLights (applyCommand D (SceneCommand.updateLight id u)).lights live).1) ∧
    (∃ ll', recGet (syncLights (applyCommand D (SceneCommand.updateLight id u)).lights live).2 id
          = some ll' ∧
        ll'.kind = LL.kind ∧ ll'.angleL = LL.angleL ∧ ll'.penumbraL = LL.penumbraL ∧
        ll'.decayL = LL.decayL ∧ ll'.distanceL = LL.distanceL ∧
        ll'.groundColorL = LL.groundColorL ∧ ll'.castShadowL = LL.castShadowL) := by
  have hD' : (applyCommand D (SceneCommand.updateLight id u)).lights
      = recSet D.lights id (L.merge u) := by
    simp [applyCommand, hdoc]
  have hget' : recGet (applyCommand D (SceneCommand.updateLight id u)).lights id
      = some (L.merge u) := by
    rw [hD']; exact recGet_recSet_self _ _ _
  refine ⟨hget', rfl, ?_, ?_⟩
  · intro hmem
    simp only [syncLights, List.mem_map] at hmem
    obtain ⟨p, hpf, hpid⟩ := hmem
    have hpred := (List.mem_filter.mp hpf).2
    rw [hpid] at hpred
    rw [hget'] at hpred
    simp at hpred
  · simp only [syncLights]
    apply syncLights_fold_preserves
      (fun ll' => ll'.kind = LL.kind ∧ ll'.angleL = LL.angleL ∧
        ll'.penumbraL = LL.penumbraL ∧ ll'.decayL = LL.decayL ∧
        ll'.distanceL = LL.distanceL ∧ ll'.groundColorL = LL.groundColorL ∧
        ll'.castShadowL = LL.castShadowL)
      (fun ll cfg hp => by simpa [updateLightL] using hp)
    refine ⟨LL, ?_, rfl, rfl, rfl, rfl, rfl, rfl, rfl⟩
    rw [recGet_filter_keyPred_true live id
      (fun k => (recGet (applyCommand D (SceneCommand.updateLight id u)).lights k).isSome)
      (by simp [hget'])]
    exact hlive

/-- Witness for C10: update the default ambient light's type to `point`
while it is live; the document stores the new type, the live light keeps
kind `ambient`. -/
theorem c10_live_light_update_scope_witness :
    (recGet (applyCommand INITIAL_STATE
        (SceneCommand.updateLight "default-ambient" { type := some LightType.point })).lights
        "default-ambient"
      = some (DEFAULT_AMBIENT_LIGHT.merge { type := some LightType.point })) ∧
    ((DEFAULT_AMBIENT_LIGHT.merge { type := some LightType.point }).type
      = (some LightType.point).getD DEFAULT_AMBIENT_LIGHT.type) ∧
    ("default-ambient" ∉ (syncLights (applyCommand INITIAL_STATE
        (SceneCommand.updateLight "default-ambient" { type := some LightType.point })).lights
        [("default-ambient", createLightL DEFAULT_AMBIENT_LIGHT)]).1) ∧
    (∃ ll', recGet (syncLights (applyCommand INITIAL_STATE
          (SceneCommand.updateLight "default-ambient" { type := some LightType.point })).lights
          [("default-ambient", createLightL DEFAULT_AMBIENT_LIGHT)]).2 "default-ambient"
        = some ll' ∧
      ll'.kind = (createLightL DEFAULT_AMBIENT_LIGHT).kind ∧
      ll'.angleL = (createLightL DEFAULT_AMBIENT_LIGHT).angleL ∧
      ll'.penumbraL = (createLightL DEFAULT_AMBIENT_LIGHT).penumbraL ∧
      ll'.decayL = (createLightL DEFAULT_AMBIENT_LIGHT).decayL ∧
      ll'.distanceL = (createLightL DEFAULT_AMBIENT_LIGHT).distanceL ∧
      ll'.groundColorL = (createLightL DEFAULT_AMBIENT_LIGHT).groundColorL ∧
      ll'.castShadowL = (createLightL DEFAULT_AMBIENT_LIGHT).castShadowL) :=
  c10_live_light_update_scope INITIAL_STATE
    [("default-ambient", createLightL DEFAULT_AMBIENT_LIGHT)]
    "default-ambient" DEFAULT_AMBIENT_LIGHT (createLightL DEFAULT_AMBIENT_LIGHT)
    { type := some LightType.point } rfl rfl

/-! ## Prefix-matching lemmas -/

theorem leadsWith_length : ∀ p l : List Char, leadsWith p l = true → p.length ≤ l.length := by
  intro p
  induction p with
  | nil => intro l _; simp
  | cons a p ih =>
    intro l h
    cases l with
    | nil => simp [leadsWith] at h
    | cons b l =>
      simp only [leadsWith, Bool.and_eq_true] at h
      simpa [List.length_cons] using Nat.succ_le_succ (ih l h.2)

theorem leadsWith_append : ∀ p l : List Char, leadsWith p l = true →
    ∀ e, leadsWith p (l ++ e) = true := by
  intro p
  induction p with
  | nil => intro l _ e; rfl
  | cons a p ih =>
    intro l h e
    cases l with
    | nil => simp [leadsWith] at h
    | cons b l =>
      simp only [leadsWith, Bool.and_eq_true] at h
      simp only [List.cons_append, leadsWith, Bool.and_eq_true]
      exact ⟨h.1, ih l h.2 e⟩

theorem leadsWith_append_of_le : ∀ p l : List Char, p.length ≤ l.length →
    ∀ e, leadsWith p (l ++ e) = leadsWith p l := by
  intro p
  induction p with
  | nil => intro l _ e; rfl
  | cons a p ih =>
    intro l h e
    cases l with
    | nil => simp at h
    | cons b l =>
      simp only [List.cons_append, leadsWith, List.append_eq]
      have := ih l (by simpa using h) e
      simp only [List.append_eq] at this
      rw [this]

theorem leadsWith_false_of_short : ∀ p l : List Char, leadsWith p l = false →
    leadsWith l p = false → ∀ e, leadsWith p (l ++ e) = false := by
  intro p
  induction p with
  | nil => intro l h _ _; simp [leadsWith] at h
  | cons a p ih =>
    intro l h h' e
    cases l with
    | nil => simp [leadsWith] at h'
    | cons b l =>
      simp only [List.cons_append, leadsWith, List.append_eq] at h h' ⊢
      by_cases hab : a = b
      · subst hab
        have da : decide (a = a) = true := by simp
        rw [da, Bool.true_and] at h h' ⊢
        have := ih l h h' e
        simpa [List.append_eq] using this
      · simp [decide_eq_false hab]

theorem leadsWith_self_append (p e : List Char) : leadsWith p (p ++ e) = true := by
  induction p with
  | nil => rfl
  | cons a p ih => simp [leadsWith, ih]

theorem leadsWith_refl (p : List Char) : leadsWith p p = true := by
  have := leadsWith_self_append p []
  simpa using this

theorem leadsWith_take_drop : ∀ p l : List Char, leadsWith p l = true →
    l = p ++ l.drop p.length := by
  intro p
  induction p with
  | nil => intro l _; rfl
  | cons a p ih =>
    intro l h
    cases l with
    | nil => simp [leadsWith] at h
    | cons b l =>
      simp only [leadsWith, Bool.and_eq_true, decide_eq_true_eq] at h
      obtain ⟨rfl, h2⟩ := h
      simpa [List.cons_append] using ih l h2

/-! ## Loop fuel irrelevance and the unfolding equation -/

theorem extractGo_nil (st : ParserState)
    (h : st.buffer.drop st.processedIndex = []) :
    ∀ f, extractGo f st = ([], st) := by
  intro f
  cases f with
  | zero => rfl
  | succ f =>
    show extractStep (extractGo f) st = ([], st)
    unfold extractStep
    rw [h]

theorem extractStep_congr (k₁ k₂ : ParserState → List Json × ParserState)
    (st : ParserState)
    (h : ∀ st', st'.buffer = st.buffer → st.processedIndex < st'.processedIndex →
      k₁ st' = k₂ st') :
    extractStep k₁ st = extractStep k₂ st := by
  have hopen : 0 < openTagL.length := by decide
  have hclose : 0 < closeTagL.length := by decide
  unfold extractStep
  cases hdrop : st.buffer.drop st.processedIndex with
  | nil => rfl
  | cons c r =>
    simp only []
    by_cases hin : st.insideBlock = false
    · rw [if_pos hin, if_pos hin]
      by_cases h1 : leadsWith openTagL (c :: r) = true
      · rw [if_pos h1, if_pos h1]
        exact h _ rfl (by simp only []; omega)
      · rw [if_neg h1, if_neg h1]
        by_cases h2 : (c :: r).length < openTagL.length ∧ leadsWith (c :: r) openTagL = true
        · rw [if_pos h2, if_pos h2]
        · rw [if_neg h2, if_neg h2]
          exact h _ rfl (by simp only []; omega)
    · rw [if_neg hin, if_neg hin]
      by_cases h1 : leadsWith closeTagL (c :: r) = true
      · rw [if_pos h1, if_pos h1]
        exact h _ rfl (by simp only []; omega)
      · rw [if_neg h1, if_neg h1]
        by_cases h2 : (c :: r).length < closeTagL.length ∧ leadsWith (c :: r) closeTagL = true
        · rw [if_pos h2, if_pos h2]
        · rw [if_neg h2, if_neg h2]
          by_cases h3 : st.escapeNext = true
          · rw [if_pos h3, if_pos h3]
            exact h _ rfl (by simp only []; omega)
          · rw [if_neg h3, if_neg h3]
            by_cases h4 : c = bslash ∧ st.inString = true
            · rw [if_pos h4, if_pos h4]
              exact h _ rfl (by simp only []; omega)
            · rw [if_neg h4, if_neg h4]
              by_cases h5 : c = quoteC ∧ st.escapeNext = false
              · rw [if_pos h5, if_pos h5]
                exact h _ rfl (by simp only []; omega)
              · rw [if_neg h5, if_neg h5]
                by_cases h6 : st.inString = false ∧ c = lbrace
                · rw [if_pos h6, if_pos h6]
                  exact h _ rfl (by simp only []; omega)
                · rw [if_neg h6, if_neg h6]
                  by_cases h7 : st.inString = false ∧ c = rbrace
                  · rw [if_pos h7, if_pos h7]
                    by_cases h8 : st.braceDepth - 1 = 0 ∧
                        (trimWs (st.jsonBuffer ++ [c])).isEmpty = false
                    · rw [if_pos h8, if_pos h8]
                      rw [h { buffer := st.buffer,
                              processedIndex := st.processedIndex + 1,
                              insideBlock := st.insideBlock, jsonBuffer := [],
                              braceDepth := st.braceDepth - 1,
                              inString := st.inString,
                              escapeNext := st.escapeNext }
                            rfl (by simp only []; omega)]
                    · rw [if_neg h8, if_neg h8]
                      exact h _ rfl (by simp only []; omega)
                  · rw [if_neg h7, if_neg h7]
                    exact h _ rfl (by simp only []; omega)

theorem extractGo_irrel : ∀ f₁ f₂ : Nat, ∀ st : ParserState,
    st.buffer.length - st.processedIndex ≤ f₁ →
    st.buffer.length - st.processedIndex ≤ f₂ →
    extractGo f₁ st = extractGo f₂ st := by
  intro f₁
  induction f₁ with
  | zero =>
    intro f₂ st h₁ _
    have hnil : st.buffer.drop st.processedIndex = [] :=
      List.drop_eq_nil_of_le (by omega)
    rw [extractGo_nil st hnil, extractGo_nil st hnil]
  | succ f₁ ih =>
    intro f₂ st h₁ h₂
    cases f₂ with
    | zero =>
      have hnil : st.buffer.drop st.processedIndex = [] :=
        List.drop_eq_nil_of_le (by omega)
      rw [extractGo_nil st hnil, extractGo_nil st hnil]
    | succ f₂ =>
      show extractStep (extractGo f₁) st = extractStep (extractGo f₂) st
      apply extractStep_congr
      intro st' hbuf hidx
      apply ih
      · rw [hbuf]; omega
      · rw [hbuf]; omega

theorem extractLoop_eq_go (f : Nat) (st : ParserState)
    (h : st.buffer.length - st.processedIndex ≤ f) :
    extractLoop st = extractGo f st := by
  rw [extractLoop]
  exact extractGo_irrel _ f st le_rfl h

theorem extractLoop_unfold (st : ParserState) :
    extractLoop st = extractStep extractLoop st := by
  cases hdrop : st.buffer.drop st.processedIndex with
  | nil =>
    rw [extractLoop, extractGo_nil st hdrop]
    unfold extractStep
    rw [hdrop]
  | cons c r =>
    have hlt : st.processedIndex < st.buffer.length := by
      by_contra hc
      push_neg at hc
      rw [List.drop_eq_nil_of_le hc] at hdrop
      cases hdrop
    have hm : st.buffer.length - st.processedIndex
        = (st.buffer.length - (st.processedIndex + 1)) + 1 := by omega
    rw [extractLoop, hm]
    show extractStep (extractGo (st.buffer.length - (st.processedIndex + 1))) st
      = extractStep extractLoop st
    apply extractStep_congr
    intro st' hbuf hidx
    exact (extractLoop_eq_go _ st' (by rw [hbuf]; omega)).symm

theorem extractLoop_nil (st : ParserState)
    (h : st.buffer.drop st.processedIndex = []) :
    extractLoop st = ([], st) := by
  rw [extractLoop]
  exact extractGo_nil st h _

theorem trimWs_append_rbrace_ne_nil (l : List Char) :
    (trimWs (l ++ [rbrace])).isEmpty = false := by
  have hw : isTrimWs rbrace = false := by decide
  have hstep : ∃ t, (l ++ [rbrace]).dropWhile isTrimWs = t ++ [rbrace] := by
    induction l with
    | nil =>
      refine ⟨[], ?_⟩
      simp [List.dropWhile, hw]
    | cons a l ih =>
      by_cases ha : isTrimWs a
      · simpa [List.dropWhile, ha] using ih
      · exact ⟨a :: l, by simp [List.dropWhile, ha]⟩
  obtain ⟨t, ht⟩ := hstep
  rw [trimWs, ht]
  rw [List.reverse_append, List.reverse_cons]
  simp only [List.nil_append, List.dropWhile, hw]
  simp [List.isEmpty_iff]

/-! ## Tag navigation steps of the extractor loop -/

theorem extractLoop_openTag (B : List Char) (i : Nat) (jb : List Char)
    (d : Int) (s e : Bool)
    (hmatch : leadsWith openTagL (B.drop i) = true) :
    extractLoop { buffer := B, processedIndex := i, insideBlock := false,
                  jsonBuffer := jb, braceDepth := d, inString := s, escapeNext := e }
    = extractLoop (inBlockSt B (i + openTagL.length) 0 false false []) := by
  rw [extractLoop_unfold]
  unfold extractStep
  simp only []
  cases hdrop : B.drop i with
  | nil => rw [hdrop] at hmatch; simp [leadsWith, openTagL] at hmatch
  | cons c r =>
    rw [hdrop] at hmatch
    simp [hmatch, inBlockSt]

theorem extractLoop_outside_skip (B : List Char) (i : Nat) (jb : List Char)
    (d : Int) (s e : Bool) (c : Char) (r : List Char)
    (hdrop : B.drop i = c :: r)
    (hno : leadsWith openTagL (c :: r) = false)
    (hnp : ¬ ((c :: r).length < openTagL.length ∧ leadsWith (c :: r) openTagL = true)) :
    extractLoop { buffer := B, processedIndex := i, insideBlock := false,
                  jsonBuffer := jb, braceDepth := d, inString := s, escapeNext := e }
    = extractLoop { buffer := B, processedIndex := i + 1, insideBlock := false,
                    jsonBuffer := jb, braceDepth := d, inString := s, escapeNext := e } := by
  rw [extractLoop_unfold]
  unfold extractStep
  simp only []
  rw [hdrop]
  simp [hno]
  intro h1 h2
  exact absurd ⟨by simpa using h1, h2⟩ hnp

theorem extractLoop_closeTag (B : List Char) (i : Nat) (jb : List Char)
    (d : Int) (s e : Bool)
    (hmatch : leadsWith closeTagL (B.drop i) = true) :
    extractLoop (inBlockSt B i d s e jb)
    = extractLoop { buffer := B, processedIndex := i + closeTagL.length,
                    insideBlock := false, jsonBuffer := [], braceDepth := 0,
                    inString := s, escapeNext := e } := by
  rw [extractLoop_unfold]
  unfold extractStep
  simp only [inBlockSt]
  cases hdrop : B.drop i with
  | nil => rw [hdrop] at hmatch; simp [leadsWith, closeTagL] at hmatch
  | cons c r =>
    rw [hdrop] at hmatch
    simp [hmatch]

theorem not_partial_of_len (l : List Char)
    (h : closeTagL.length ≤ l.length) :
    ¬ (l.length < closeTagL.length ∧ leadsWith l closeTagL = true) :=
  fun hx => absurd hx.1 (Nat.not_lt.mpr h)

/-! ## Character steps of the extractor loop inside a block

Each lemma assumes the closing tag does not match at the current position
and that at least a closing tag's worth of input remains (inside a
complete block both always hold strictly before the closing tag). -/

theorem extractLoop_step_esc (B : List Char) (i : Nat) (d : Int) (s : Bool)
    (jb : List Char) (c : Char) (r : List Char)
    (hdrop : B.drop i = c :: r)
    (hnc : leadsWith closeTagL (c :: r) = false)
    (hnp : ¬ ((c :: r).length < closeTagL.length ∧ leadsWith (c :: r) closeTagL = true)) :
    extractLoop (inBlockSt B i d s true jb)
    = extractLoop (inBlockSt B (i + 1) d s false (jb ++ [c])) := by
  rw [extractLoop_unfold]
  unfold extractStep
  simp only [inBlockSt]
  rw [hdrop]
  simp [hnc]
  intro h1 h2
  exact absurd ⟨by simpa using h1, h2⟩ hnp

theorem extractLoop_step_bslash (B : List Char) (i : Nat) (d : Int)
    (jb : List Char) (r : List Char)
    (hdrop : B.drop i = bslash :: r)
    (hnc : leadsWith closeTagL (bslash :: r) = false)
    (hnp : ¬ ((bslash :: r).length < closeTagL.length ∧ leadsWith (bslash :: r) closeTagL = true)) :
    extractLoop (inBlockSt B i d true false jb)
    = extractLoop (inBlockSt B (i + 1) d true true (jb ++ [bslash])) := by
  rw [extractLoop_unfold]
  unfold extractStep
  simp only [inBlockSt]
  rw [hdrop]
  simp [hnc]
  intro h1 h2
  exact absurd ⟨by simpa using h1, h2⟩ hnp

theorem extractLoop_step_quote (B : List Char) (i : Nat) (d : Int) (s : Bool)
    (jb : List Char) (r : List Char)
    (hdrop : B.drop i = quoteC :: r)
    (hnc : leadsWith closeTagL (quoteC :: r) = false)
    (hnp : ¬ ((quoteC :: r).length < closeTagL.length ∧ leadsWith (quoteC :: r) closeTagL = true)) :
    extractLoop (inBlockSt B i d s false jb)
    = extractLoop (inBlockSt B (i + 1) d (!s) false (jb ++ [quoteC])) := by
  have hqb : ¬ (quoteC = bslash) := by decide
  rw [extractLoop_unfold]
  unfold extractStep
  simp only [inBlockSt]
  rw [hdrop]
  simp [hnc, hqb]
  intro h1 h2
  exact absurd ⟨by simpa using h1, h2⟩ hnp

theorem extractLoop_step_lbrace (B : List Char) (i : Nat) (d : Int)
    (jb : List Char) (r : List Char)
    (hdrop : B.drop i = lbrace :: r)
    (hnc : leadsWith closeTagL (lbrace :: r) = false)
    (hnp : ¬ ((lbrace :: r).length < closeTagL.length ∧ leadsWith (lbrace :: r) closeTagL = true)) :
    extractLoop (inBlockSt B i d false false jb)
    = extractLoop (inBlockSt B (i + 1) (d + 1) false false
        (if d = 0 then [lbrace] else jb ++ [lbrace])) := by
  have h1 : ¬ (lbrace = bslash) := by decide
  have h2 : ¬ (lbrace = quoteC) := by decide
  rw [extractLoop_unfold]
  unfold extractStep
  simp only [inBlockSt]
  rw [hdrop]
  simp [hnc, h1, h2]
  intro hx h2
  exact absurd ⟨by simpa using hx, h2⟩ hnp

theorem extractLoop_step_rbrace_emit (B : List Char) (i : Nat)
    (jb : List Char) (r : List Char)
    (hdrop : B.drop i = rbrace :: r)
    (hnc : leadsWith closeTagL (rbrace :: r) = false)
    (hnp : ¬ ((rbrace :: r).length < closeTagL.length ∧ leadsWith (rbrace :: r) closeTagL = true)) :
    extractLoop (inBlockSt B i 1 false false jb)
    = (match jsonParse (jb ++ [rbrace]) with
       | some v =>
         (v :: (extractLoop (inBlockSt B (i + 1) 0 false false [])).1,
          (extractLoop (inBlockSt B (i + 1) 0 false false [])).2)
       | none => extractLoop (inBlockSt B (i + 1) 0 false false [])) := by
  have h1 : ¬ (rbrace = bslash) := by decide
  have h2 : ¬ (rbrace = quoteC) := by decide
  have h3 : ¬ (rbrace = lbrace) := by decide
  have htrim := trimWs_append_rbrace_ne_nil jb
  rw [extractLoop_unfold]
  unfold extractStep
  simp only [inBlockSt]
  rw [hdrop]
  simp [hnc, h1, h2, h3, htrim]
  intro hx h2
  exact absurd ⟨by simpa using hx, h2⟩ hnp

theorem extractLoop_step_rbrace_noemit (B : List Char) (i : Nat) (d : Int)
    (jb : List Char) (r : List Char)
    (hdrop : B.drop i = rbrace :: r)
    (hnc : leadsWith closeTagL (rbrace :: r) = false)
    (hnp : ¬ ((rbrace :: r).length < closeTagL.length ∧ leadsWith (rbrace :: r) closeTagL = true))
    (hd : ¬ (d - 1 = 0)) :
    extractLoop (inBlockSt B i d false false jb)
    = extractLoop (inBlockSt B (i + 1) (d - 1) false false (jb ++ [rbrace])) := by
  have h1 : ¬ (rbrace = bslash) := by decide
  have h2 : ¬ (rbrace = quoteC) := by decide
  have h3 : ¬ (rbrace = lbrace) := by decide
  rw [extractLoop_unfold]
  unfold extractStep
  simp only [inBlockSt]
  rw [hdrop]
  simp [hnc, h1, h2, h3, hd]
  intro hx h2
  exact absurd ⟨by simpa using hx, h2⟩ hnp

theorem extractLoop_step_other (B : List Char) (i : Nat) (d : Int) (s : Bool)
    (jb : List Char) (c : Char) (r : List Char)
    (hdrop : B.drop i = c :: r)
    (hnc : leadsWith closeTagL (c :: r) = false)
    (hnp : ¬ ((c :: r).length < closeTagL.length ∧ leadsWith (c :: r) closeTagL = true))
    (h1 : ¬ (c = bslash ∧ s = true))
    (h2 : ¬ (c = quoteC))
    (h3 : ¬ (s = false ∧ c = lbrace))
    (h4 : ¬ (s = false ∧ c = rbrace)) :
    extractLoop (inBlockSt B i d s false jb)
    = extractLoop (inBlockSt B (i + 1) d s false
        (if d > 0 then jb ++ [c] else jb)) := by
  rw [extractLoop_unfold]
  unfold extractStep
  simp only [inBlockSt]
  rw [hdrop]
  simp [hnc, h1, h2, h3, h4]
  intro hx h2
  exact absurd ⟨by simpa using hx, h2⟩ hnp

/-! ## Scanner-machine correspondence -/

theorem scanFold_snoc (m : ScanSt) (l : List Char) (c : Char) :
    scanFold m (l ++ [c]) = scanTok (scanFold m l) c := by
  simp [scanFold, List.foldl_append]

theorem sep_not_special : ∀ a ∈ sepChars,
    a ≠ quoteC ∧ a ≠ lbrace ∧ a ≠ rbrace ∧ a ≠ bslash := by decide

theorem scanTok_to_clean (m : ScanSt) (c : Char) (hd : 1 ≤ m.depth)
    (h : scanTok m c = initScan) : m = ⟨1, false, false⟩ ∧ c = rbrace := by
  unfold scanTok at h
  by_cases he : m.esc
  · rw [if_pos he] at h
    simp [initScan, ScanSt.mk.injEq] at h
    omega
  · rw [if_neg he] at h
    by_cases h1 : c = bslash ∧ m.inStr = true
    · rw [if_pos h1] at h
      simp [initScan, ScanSt.mk.injEq] at h
    · rw [if_neg h1] at h
      by_cases h2 : c = quoteC
      · rw [if_pos h2] at h
        simp [initScan, ScanSt.mk.injEq] at h
        omega
      · rw [if_neg h2] at h
        by_cases h3 : m.inStr = false ∧ c = lbrace
        · rw [if_pos h3] at h
          simp [initScan, ScanSt.mk.injEq] at h
          omega
        · rw [if_neg h3] at h
          by_cases h4 : m.inStr = false ∧ c = rbrace
          · rw [if_pos h4] at h
            simp only [initScan, ScanSt.mk.injEq] at h
            obtain ⟨hdep, hstr, hesc⟩ := h
            refine ⟨?_, h4.2⟩
            have : m.depth = 1 := by omega
            cases m
            simp_all
          · rw [if_neg h4] at h
            rw [h] at hd
            simp [initScan] at hd

theorem objish_shape {o : List Char} (h : Objish o) :
    ∃ t, o = lbrace :: t ∧ t ≠ [] := by
  obtain ⟨hh, hfold, _⟩ := h
  cases o with
  | nil => simp at hh
  | cons a t =>
    simp only [List.head?] at hh
    refine ⟨t, by simpa using hh, ?_⟩
    intro ht
    subst ht
    have ha : a = lbrace := by simpa using hh
    subst ha
    simp [scanFold, scanTok, initScan, ScanSt.mk.injEq, lbrace, bslash, quoteC, rbrace] at hfold

theorem objish_depth_pos {o : List Char} (h : Objish o) (p r : List Char)
    (ho : o = p ++ r) (hp : p ≠ []) (hr : r ≠ []) :
    1 ≤ (scanFold initScan p).depth := by
  obtain ⟨_, _, hdep⟩ := h
  have htake : o.take p.length = p := by rw [ho]; exact List.take_left p r
  have hlen : p.length < o.length := by
    rw [ho, List.length_append]
    have : 0 < r.length := List.length_pos.mpr hr
    omega
  have := hdep p.length hlen (List.length_pos.mpr hp)
  rwa [htake] at this

theorem consume_obj_aux (B : List Char) (i : Nat) (o rest : List Char)
    (hdropB : B.drop i = o ++ rest)
    (hobj : Objish o)
    (hsafe : ∀ j, i ≤ j → j < i + o.length → leadsWith closeTagL (B.drop j) = false)
    (hlenB : ∀ j, i ≤ j → j < i + o.length → closeTagL.length ≤ (B.drop j).length) :
    ∀ r p : List Char, o = p ++ r → p ≠ [] → r ≠ [] →
      extractLoop (inBlockSt B (i + p.length)
          (scanFold initScan p).depth (scanFold initScan p).inStr
          (scanFold initScan p).esc p)
      = (match jsonParse o with
         | some v =>
           (v :: (extractLoop (inBlockSt B (i + o.length) 0 false false [])).1,
            (extractLoop (inBlockSt B (i + o.length) 0 false false [])).2)
         | none => extractLoop (inBlockSt B (i + o.length) 0 false false [])) := by
  intro r
  induction r with
  | nil =>
    intro p _ _ hr
    exact absurd rfl hr
  | cons c r' ih =>
    intro p hop hp _
    have hplen_lt : p.length < o.length := by
      rw [hop, List.length_append, List.length_cons]
      omega
    have hdropP : B.drop (i + p.length) = c :: (r' ++ rest) := by
      have h1 : (B.drop i).drop p.length = B.drop (i + p.length) :=
        List.drop_drop p.length i B
      rw [← h1, hdropB, hop, List.append_assoc, List.drop_left]
      simp
    have hsafeP : leadsWith closeTagL (c :: (r' ++ rest)) = false := by
      have := hsafe (i + p.length) (by omega) (by omega)
      rwa [hdropP] at this
    have hlenP : closeTagL.length ≤ (c :: (r' ++ rest)).length := by
      have := hlenB (i + p.length) (by omega) (by omega)
      rwa [hdropP] at this
    have hdep : 1 ≤ (scanFold initScan p).depth :=
      objish_depth_pos hobj p (c :: r') hop hp (by simp)
    by_cases hr' : r' = []
    · -- final character: the scanner returns to the clean state, so the
      -- character is `}` at depth 1 and the loop attempts a parse.
      subst hr'
      have hfin : scanTok (scanFold initScan p) c = initScan := by
        have h2 := hobj.2.1
        rw [hop, scanFold_snoc] at h2
        exact h2
      obtain ⟨hmach, hc⟩ := scanTok_to_clean _ c hdep hfin
      subst hc
      have hd1 : (scanFold initScan p).depth = 1 := by rw [hmach]
      have hs1 : (scanFold initScan p).inStr = false := by rw [hmach]
      have he1 : (scanFold initScan p).esc = false := by rw [hmach]
      rw [hd1, hs1, he1]
      rw [extractLoop_step_rbrace_emit B (i + p.length) p ([] ++ rest)
        hdropP hsafeP (not_partial_of_len _ hlenP)]
      have ho_len : o.length = p.length + 1 := by rw [hop]; simp
      rw [← hop, show i + p.length + 1 = i + o.length by omega]
    · -- interior character: one machine-mirroring step, then the
      -- induction hypothesis at the extended prefix.
      have hp' : (p ++ [c]) ≠ [] := by simp
      have hop' : o = (p ++ [c]) ++ r' := by rw [hop, List.append_assoc]; simp
      have hplc : (p ++ [c]).length = p.length + 1 := by simp
      have hIH := ih (p ++ [c]) hop' hp' hr'
      rw [scanFold_snoc, hplc, show i + (p.length + 1) = i + p.length + 1 by omega]
        at hIH
      have hdep' : 1 ≤ (scanTok (scanFold initScan p) c).depth := by
        have := objish_depth_pos hobj (p ++ [c]) r' hop' hp' hr'
        rwa [scanFold_snoc] at this
      by_cases hesc : (scanFold initScan p).esc = true
      · rw [hesc]
        rw [extractLoop_step_esc B (i + p.length) _ _ p c (r' ++ rest)
          hdropP hsafeP (not_partial_of_len _ hlenP)]
        have hmtok : scanTok (scanFold initScan p) c
            = ⟨(scanFold initScan p).depth, (scanFold initScan p).inStr, false⟩ := by
          unfold scanTok; rw [if_pos hesc]
        rw [hmtok] at hIH
        exact hIH
      · have hescf : (scanFold initScan p).esc = false := by
          simpa using hesc
        rw [hescf]
        by_cases hbs : c = bslash ∧ (scanFold initScan p).inStr = true
        · obtain ⟨hcb, hstr⟩ := hbs
          subst hcb
          rw [hstr]
          rw [extractLoop_step_bslash B (i + p.length) _ p (r' ++ rest)
            hdropP hsafeP (not_partial_of_len _ hlenP)]
          have hmtok : scanTok (scanFold initScan p) bslash
              = ⟨(scanFold initScan p).depth, (scanFold initScan p).inStr, true⟩ := by
            unfold scanTok
            rw [if_neg (by simp [hescf]), if_pos ⟨rfl, hstr⟩]
          rw [hmtok, hstr] at hIH
          exact hIH
        · by_cases hquo : c = quoteC
          · subst hquo
            rw [extractLoop_step_quote B (i + p.length) _ _ p (r' ++ rest)
              hdropP hsafeP (not_partial_of_len _ hlenP)]
            have hmtok : scanTok (scanFold initScan p) quoteC
                = ⟨(scanFold initScan p).depth, !(scanFold initScan p).inStr, false⟩ := by
              unfold scanTok
              rw [if_neg (by simp [hescf]), if_neg hbs, if_pos rfl]
            rw [hmtok] at hIH
            exact hIH
          · by_cases hlb : (scanFold initScan p).inStr = false ∧ c = lbrace
            · obtain ⟨hstr, hcl⟩ := hlb
              subst hcl
              rw [hstr]
              rw [extractLoop_step_lbrace B (i + p.length) _ p (r' ++ rest)
                hdropP hsafeP (not_partial_of_len _ hlenP)]
              rw [if_neg (by omega)]
              have hmtok : scanTok (scanFold initScan p) lbrace
                  = ⟨(scanFold initScan p).depth + 1, (scanFold initScan p).inStr, false⟩ := by
                unfold scanTok
                rw [if_neg (by simp [hescf]), if_neg (by simp [lbrace, bslash, hstr]),
                  if_neg (by simp [lbrace, quoteC]), if_pos ⟨hstr, rfl⟩]
              rw [hmtok, hstr] at hIH
              exact hIH
            · by_cases hrb : (scanFold initScan p).inStr = false ∧ c = rbrace
              · obtain ⟨hstr, hcr⟩ := hrb
                subst hcr
                rw [hstr]
                have hmtok : scanTok (scanFold initScan p) rbrace
                    = ⟨(scanFold initScan p).depth - 1, (scanFold initScan p).inStr, false⟩ := by
                  unfold scanTok
                  rw [if_neg (by simp [hescf]), if_neg (by simp [rbrace, bslash, hstr]),
                    if_neg (by simp [rbrace, quoteC]),
                    if_neg (by simp [rbrace, lbrace, hstr]), if_pos ⟨hstr, rfl⟩]
                have hd1 : ¬ ((scanFold initScan p).depth - 1 = 0) := by
                  rw [hmtok] at hdep'
                  simp only [] at hdep'
                  omega
                rw [extractLoop_step_rbrace_noemit B (i + p.length) _ p (r' ++ rest)
                  hdropP hsafeP (not_partial_of_len _ hlenP) hd1]
                rw [hmtok, hstr] at hIH
                exact hIH
              · rw [extractLoop_step_other B (i + p.length) _ _ p c (r' ++ rest)
                  hdropP hsafeP (not_partial_of_len _ hlenP) hbs hquo hlb hrb]
                rw [if_pos (by omega)]
                have hmtok : scanTok (scanFold initScan p) c
                    = scanFold initScan p := by
                  unfold scanTok
                  rw [if_neg (by simp [hescf]), if_neg hbs, if_neg hquo,
                    if_neg hlb, if_neg hrb]
                rw [hmtok] at hIH
                rw [hescf] at hIH
                exact hIH

theorem consume_obj (B : List Char) (i : Nat) (o rest jb0 : List Char)
    (hdropB : B.drop i = o ++ rest)
    (hobj : Objish o)
    (hsafe : ∀ j, i ≤ j → j < i + o.length → leadsWith closeTagL (B.drop j) = false)
    (hlenB : ∀ j, i ≤ j → j < i + o.length → closeTagL.length ≤ (B.drop j).length) :
    extractLoop (inBlockSt B i 0 false false jb0)
    = (match jsonParse o with
       | some v =>
         (v :: (extractLoop (inBlockSt B (i + o.length) 0 false false [])).1,
          (extractLoop (inBlockSt B (i + o.length) 0 false false [])).2)
       | none => extractLoop (inBlockSt B (i + o.length) 0 false false [])) := by
  obtain ⟨t, hshape, ht⟩ := objish_shape hobj
  have holen : 0 < o.length := by rw [hshape]; simp
  have hdrop0 : B.drop i = lbrace :: (t ++ rest) := by
    rw [hdropB, hshape]; simp
  have hsafe0 : leadsWith closeTagL (lbrace :: (t ++ rest)) = false := by
    have := hsafe i le_rfl (by omega)
    rwa [hdrop0] at this
  have hlen0 : closeTagL.length ≤ (lbrace :: (t ++ rest)).length := by
    have := hlenB i le_rfl (by omega)
    rwa [hdrop0] at this
  rw [extractLoop_step_lbrace B i 0 jb0 (t ++ rest) hdrop0 hsafe0 (not_partial_of_len _ hlen0)]
  rw [if_pos rfl]
  have haux := consume_obj_aux B i o rest hdropB hobj hsafe hlenB t [lbrace]
    (by rw [hshape]; rfl) (by simp) ht
  have hsf : scanFold initScan [lbrace] = ⟨1, false, false⟩ := by decide
  rw [hsf] at haux
  simp only [List.length_cons, List.length_nil] at haux
  rw [show (0 : Int) + 1 = 1 by decide]
  exact haux

theorem consume_seps (B : List Char) :
    ∀ w : List Char, (∀ c ∈ w, c ∈ sepChars) →
    ∀ (i : Nat) (rest : List Char), B.drop i = w ++ rest →
    (∀ j, i ≤ j → j < i + w.length → leadsWith closeTagL (B.drop j) = false) →
    (∀ j, i ≤ j → j < i + w.length → closeTagL.length ≤ (B.drop j).length) →
    extractLoop (inBlockSt B i 0 false false [])
    = extractLoop (inBlockSt B (i + w.length) 0 false false []) := by
  intro w
  induction w with
  | nil =>
    intro _ i rest _ _ _
    simp
  | cons a w ihw =>
    intro hw i rest hdropB hsafe hlenB
    have ha := hw a (List.mem_cons_self a w)
    obtain ⟨hq, hl, hr, hb⟩ := sep_not_special a ha
    have hdrop0 : B.drop i = a :: (w ++ rest) := by rw [hdropB]; simp
    have hsafe0 : leadsWith closeTagL (a :: (w ++ rest)) = false := by
      have := hsafe i le_rfl (by simp)
      rwa [hdrop0] at this
    have hlen0 : closeTagL.length ≤ (a :: (w ++ rest)).length := by
      have := hlenB i le_rfl (by simp)
      rwa [hdrop0] at this
    rw [extractLoop_step_other B i 0 false [] a (w ++ rest) hdrop0 hsafe0 (not_partial_of_len _ hlen0)
      (by rintro ⟨_, h⟩; cases h) hq
      (by rintro ⟨_, h⟩; exact hl h) (by rintro ⟨_, h⟩; exact hr h)]
    rw [if_neg (by omega)]
    have hdrop1 : B.drop (i + 1) = w ++ rest := by
      have h1 : (B.drop i).drop 1 = B.drop (i + 1) := List.drop_drop 1 i B
      rw [← h1, hdrop0]
      simp
    have hres := ihw (fun c hc => hw c (List.mem_cons_of_mem a hc)) (i + 1) rest
      hdrop1
      (fun j hj hj' => hsafe j (by omega) (by simp only [List.length_cons]; omega))
      (fun j hj hj' => hlenB j (by omega) (by simp only [List.length_cons]; omega))
    rw [hres]
    rw [show i + 1 + w.length = i + (a :: w).length by simp only [List.length_cons]; omega]

theorem scan_body (B : List Char) :
    ∀ (body : List Char) (os : List (List Char)), BodyChunks body os →
    ∀ (i : Nat) (rest : List Char), B.drop i = body ++ rest →
    (∀ j, i ≤ j → j < i + body.length → leadsWith closeTagL (B.drop j) = false) →
    (∀ j, i ≤ j → j < i + body.length → closeTagL.length ≤ (B.drop j).length) →
    extractLoop (inBlockSt B i 0 false false [])
    = ((os.filterMap jsonParse)
        ++ (extractLoop (inBlockSt B (i + body.length) 0 false false [])).1,
       (extractLoop (inBlockSt B (i + body.length) 0 false false [])).2) := by
  intro body os h
  induction h with
  | nil w hwsep =>
    intro i rest hdropB hsafe hlenB
    rw [consume_seps B w hwsep i rest hdropB hsafe hlenB]
    simp
  | cons w o b os hwsep hobj hbody ihb =>
    intro i rest hdropB hsafe hlenB
    have hbl : (w ++ (o ++ b)).length = w.length + o.length + b.length := by
      simp [List.length_append]; omega
    have hdropW : B.drop i = w ++ ((o ++ b) ++ rest) := by
      rw [hdropB]; simp
    rw [consume_seps B w hwsep i ((o ++ b) ++ rest) hdropW
      (fun j hj hj' => hsafe j hj (by omega))
      (fun j hj hj' => hlenB j hj (by omega))]
    have hdropO : B.drop (i + w.length) = o ++ (b ++ rest) := by
      have h1 : (B.drop i).drop w.length = B.drop (i + w.length) :=
        List.drop_drop w.length i B
      rw [← h1, hdropW, List.drop_left]
      simp
    rw [consume_obj B (i + w.length) o (b ++ rest) [] hdropO hobj
      (fun j hj hj' => hsafe j (by omega) (by omega))
      (fun j hj hj' => hlenB j (by omega) (by omega))]
    have hdropb : B.drop (i + w.length + o.length) = b ++ rest := by
      have h1 : (B.drop (i + w.length)).drop o.length
          = B.drop (i + w.length + o.length) :=
        List.drop_drop o.length (i + w.length) B
      rw [← h1, hdropO, List.drop_left]
    have hIH := ihb (i + w.length + o.length) rest hdropb
      (fun j hj hj' => hsafe j (by omega) (by omega))
      (fun j hj hj' => hlenB j (by omega) (by omega))
    rw [hIH]
    rw [show i + w.length + o.length + b.length = i + (w ++ (o ++ b)).length by omega]
    rw [List.filterMap_cons]
    cases jsonParse o <;> simp

theorem extract_block (body : List Char) (os : List (List Char))
    (hb : BodyChunks body os)
    (hsafe : ∀ k, k < body.length →
      leadsWith closeTagL ((body ++ closeTagL).drop k) = false) :
    (addChunk initState (openTagL ++ (body ++ closeTagL))).1
      = os.filterMap jsonParse := by
  have hct : closeTagL.length = 17 := by decide
  rw [addChunk]
  have hbuf : initState.buffer ++ (openTagL ++ (body ++ closeTagL))
      = openTagL ++ (body ++ closeTagL) := by simp [initState]
  rw [show ({ initState with
        buffer := initState.buffer ++ (openTagL ++ (body ++ closeTagL)) } : ParserState)
      = { buffer := openTagL ++ (body ++ closeTagL), processedIndex := 0,
          insideBlock := false, jsonBuffer := [], braceDepth := 0,
          inString := false, escapeNext := false } by
    simp [initState]]
  have hopen : leadsWith openTagL ((openTagL ++ (body ++ closeTagL)).drop 0) = true := by
    rw [List.drop_zero]
    exact leadsWith_self_append _ _
  rw [extractLoop_openTag _ 0 [] 0 false false hopen]
  have hdrop1 : (openTagL ++ (body ++ closeTagL)).drop (0 + openTagL.length)
      = body ++ closeTagL := by
    rw [Nat.zero_add]
    exact List.drop_left openTagL (body ++ closeTagL)
  have hdropmid : ∀ k, (openTagL ++ (body ++ closeTagL)).drop (0 + openTagL.length + k)
      = (body ++ closeTagL).drop k := by
    intro k
    have h1 : ((openTagL ++ (body ++ closeTagL)).drop (0 + openTagL.length)).drop k
        = (openTagL ++ (body ++ closeTagL)).drop (0 + openTagL.length + k) := by
      rw [List.drop_drop]
    rw [← h1, hdrop1]
  rw [scan_body _ body os hb (0 + openTagL.length) closeTagL hdrop1
    (by
      intro j hj hj'
      obtain ⟨k, rfl⟩ : ∃ k, j = 0 + openTagL.length + k :=
        ⟨j - (0 + openTagL.length), by omega⟩
      rw [hdropmid k]
      exact hsafe k (by omega))
    (by
      intro j hj hj'
      obtain ⟨k, rfl⟩ : ∃ k, j = 0 + openTagL.length + k :=
        ⟨j - (0 + openTagL.length), by omega⟩
      rw [hdropmid k]
      rw [List.length_drop, List.length_append]
      omega)]
  have hdrop2 : (openTagL ++ (body ++ closeTagL)).drop
      (0 + openTagL.length + body.length) = closeTagL := by
    rw [hdropmid body.length, List.drop_left]
  rw [extractLoop_closeTag _ _ [] 0 false false
    (by rw [hdrop2]; exact leadsWith_refl closeTagL)]
  rw [extractLoop_nil _ (by
    rw [List.drop_eq_nil_iff]
    simp [List.length_append]
    omega)]
  simp

theorem leadsWith_append_left : ∀ a b t : List Char,
    leadsWith (a ++ b) t = true → leadsWith a t = true := by
  intro a
  induction a with
  | nil => intro b t _; rfl
  | cons x a iha =>
    intro b t h
    cases t with
    | nil => simp [leadsWith] at h
    | cons y t =>
      simp only [List.cons_append, leadsWith, Bool.and_eq_true] at h ⊢
      exact ⟨h.1, iha b t h.2⟩

theorem extend_guards (tag R ext : List Char)
    (h1 : leadsWith tag R = false)
    (h2 : ¬ (R.length < tag.length ∧ leadsWith R tag = true)) :
    leadsWith tag (R ++ ext) = false ∧
    ¬ ((R ++ ext).length < tag.length ∧ leadsWith (R ++ ext) tag = true) := by
  constructor
  · by_cases hl : tag.length ≤ R.length
    · rw [leadsWith_append_of_le tag R hl ext]
      exact h1
    · have hRT : leadsWith R tag = false := by
        cases hb : leadsWith R tag with
        | false => rfl
        | true => exact absurd ⟨by omega, hb⟩ h2
      exact leadsWith_false_of_short tag R h1 hRT ext
  · rintro ⟨hlen, hlw⟩
    exact h2 ⟨by rw [List.length_append] at hlen; omega,
      leadsWith_append_left R ext tag hlw⟩

theorem extractLoop_break_outside (B : List Char) (i : Nat) (jb : List Char)
    (d : Int) (s e : Bool) (c : Char) (r : List Char)
    (hdrop : B.drop i = c :: r)
    (h1 : leadsWith openTagL (c :: r) = false)
    (h2 : (c :: r).length < openTagL.length ∧ leadsWith (c :: r) openTagL = true) :
    extractLoop { buffer := B, processedIndex := i, insideBlock := false,
                  jsonBuffer := jb, braceDepth := d, inString := s, escapeNext := e }
    = ([], { buffer := B, processedIndex := i, insideBlock := false,
             jsonBuffer := jb, braceDepth := d, inString := s, escapeNext := e }) := by
  rw [extractLoop_unfold]
  unfold extractStep
  simp only []
  rw [hdrop]
  simp only []
  rw [if_pos trivial]
  rw [if_neg (by simp [h1])]
  rw [if_pos h2]

theorem extractLoop_break_inside (B : List Char) (i : Nat) (jb : List Char)
    (d : Int) (s e : Bool) (c : Char) (r : List Char)
    (hdrop : B.drop i = c :: r)
    (h1 : leadsWith closeTagL (c :: r) = false)
    (h2 : (c :: r).length < closeTagL.length ∧ leadsWith (c :: r) closeTagL = true) :
    extractLoop (inBlockSt B i d s e jb) = ([], inBlockSt B i d s e jb) := by
  rw [extractLoop_unfold]
  unfold extractStep
  simp only [inBlockSt]
  rw [hdrop]
  simp only []
  rw [if_neg (show ¬ ((true : Bool) = false) by decide)]
  rw [if_neg (by simp [h1])]
  rw [if_pos h2]

theorem extractLoop_extend : ∀ n : Nat, ∀ st : ParserState, ∀ ext : List Char,
    st.processedIndex ≤ st.buffer.length →
    st.buffer.length - st.processedIndex ≤ n →
    extractLoop { st with buffer := st.buffer ++ ext }
      = ((extractLoop st).1
          ++ (extractLoop { (extractLoop st).2 with buffer := st.buffer ++ ext }).1,
         (extractLoop { (extractLoop st).2 with buffer := st.buffer ++ ext }).2) := by
  intro n
  induction n with
  | zero =>
    intro st ext hwf0 hm0
    obtain ⟨buf, idx, inb, jb, d, s, e⟩ := st
    have hwf : idx ≤ buf.length := hwf0
    have hm : buf.length - idx ≤ 0 := hm0
    have hnil : buf.drop idx = [] := List.drop_eq_nil_of_le (by omega)
    simp only []
    rw [extractLoop_nil ⟨buf, idx, inb, jb, d, s, e⟩ hnil]
    simp
  | succ n ih =>
    intro st ext hwf0 hm0
    obtain ⟨buf, idx, inb, jb, d, s, e⟩ := st
    have hwf : idx ≤ buf.length := hwf0
    have hm : buf.length - idx ≤ n + 1 := hm0
    cases hdrop : buf.drop idx with
    | nil =>
      simp only []
      rw [extractLoop_nil ⟨buf, idx, inb, jb, d, s, e⟩ hdrop]
      simp
    | cons c r =>
      simp only []
      have hol : 0 < openTagL.length := by decide
      have hcl : 0 < closeTagL.length := by decide
      have hlt : idx < buf.length := by
        by_contra hc
        push_neg at hc
        rw [List.drop_eq_nil_of_le hc] at hdrop
        cases hdrop
      have hRlen : (c :: r).length = buf.length - idx := by
        have h0 := List.length_drop idx buf
        rw [hdrop] at h0
        exact h0
      have hdropE : (buf ++ ext).drop idx = c :: (r ++ ext) := by
        rw [List.drop_append_of_le_length (by omega), hdrop]
        simp
      cases inb with
      | false =>
        by_cases h1 : leadsWith openTagL (c :: r) = true
        · have hE1 : leadsWith openTagL (c :: (r ++ ext)) = true := by
            have := leadsWith_append openTagL (c :: r) h1 ext
            simpa using this
          have hlw := leadsWith_length _ _ h1
          rw [extractLoop_openTag buf idx jb d s e (by rw [hdrop]; exact h1)]
          rw [extractLoop_openTag (buf ++ ext) idx jb d s e (by rw [hdropE]; exact hE1)]
          have hx := ih (inBlockSt buf (idx + openTagL.length) 0 false false []) ext
            (by simp only [inBlockSt]; simp only [List.length_cons] at hlw hRlen; omega)
            (by simp only [inBlockSt]; omega)
          simpa [inBlockSt] using hx
        · by_cases h2 : (c :: r).length < openTagL.length ∧
              leadsWith (c :: r) openTagL = true
          · have h1f : leadsWith openTagL (c :: r) = false := by simpa using h1
            rw [extractLoop_break_outside buf idx jb d s e c r hdrop h1f h2]
            simp
          · have h1f : leadsWith openTagL (c :: r) = false := by simpa using h1
            obtain ⟨hE1, hE2⟩ := extend_guards openTagL (c :: r) ext h1f h2
            rw [extractLoop_outside_skip buf idx jb d s e c r hdrop h1f h2]
            rw [extractLoop_outside_skip (buf ++ ext) idx jb d s e c (r ++ ext) hdropE
              (by simpa using hE1) (by simpa using hE2)]
            have hx := ih ⟨buf, idx + 1, false, jb, d, s, e⟩ ext
              (by simp only []; omega) (by simp only []; omega)
            simpa using hx
      | true =>
        have hsE : (⟨buf ++ ext, idx, true, jb, d, s, e⟩ : ParserState)
            = inBlockSt (buf ++ ext) idx d s e jb := rfl
        have hsO : (⟨buf, idx, true, jb, d, s, e⟩ : ParserState)
            = inBlockSt buf idx d s e jb := rfl
        rw [hsE, hsO]
        by_cases h1 : leadsWith closeTagL (c :: r) = true
        · have hE1 : leadsWith closeTagL (c :: (r ++ ext)) = true := by
            have := leadsWith_append closeTagL (c :: r) h1 ext
            simpa using this
          have hlw := leadsWith_length _ _ h1
          rw [extractLoop_closeTag buf idx jb d s e (by rw [hdrop]; exact h1)]
          rw [extractLoop_closeTag (buf ++ ext) idx jb d s e (by rw [hdropE]; exact hE1)]
          have hx := ih ⟨buf, idx + closeTagL.length, false, [], 0, s, e⟩ ext
            (by simp only []; simp only [List.length_cons] at hlw hRlen; omega)
            (by simp only []; omega)
          simpa using hx
        · by_cases h2 : (c :: r).length < closeTagL.length ∧
              leadsWith (c :: r) closeTagL = true
          · have h1f : leadsWith closeTagL (c :: r) = false := by simpa using h1
            rw [extractLoop_break_inside buf idx jb d s e c r hdrop h1f h2]
            simp [inBlockSt]
          · have h1f : leadsWith closeTagL (c :: r) = false := by simpa using h1
            obtain ⟨hE1c, hE2c⟩ := extend_guards closeTagL (c :: r) ext h1f h2
            have hncE : leadsWith closeTagL (c :: (r ++ ext)) = false := by
              simpa using hE1c
            have hnpE : ¬ ((c :: (r ++ ext)).length < closeTagL.length ∧
                leadsWith (c :: (r ++ ext)) closeTagL = true) := by
              simpa using hE2c
            by_cases he : e = true
            · subst he
              rw [extractLoop_step_esc buf idx d s jb c r hdrop h1f h2]
              rw [extractLoop_step_esc (buf ++ ext) idx d s jb c (r ++ ext)
                hdropE hncE hnpE]
              have hx := ih (inBlockSt buf (idx + 1) d s false (jb ++ [c])) ext
                (by simp only [inBlockSt]; omega) (by simp only [inBlockSt]; omega)
              simpa [inBlockSt] using hx
            · have hef : e = false := by simpa using he
              subst hef
              by_cases hbs : c = bslash ∧ s = true
              · obtain ⟨rfl, hs⟩ := hbs
                subst hs
                rw [extractLoop_step_bslash buf idx d jb r hdrop h1f h2]
                rw [extractLoop_step_bslash (buf ++ ext) idx d jb (r ++ ext)
                  hdropE hncE hnpE]
                have hx := ih (inBlockSt buf (idx + 1) d true true (jb ++ [bslash])) ext
                  (by simp only [inBlockSt]; omega) (by simp only [inBlockSt]; omega)
                simpa [inBlockSt] using hx
              · by_cases hq : c = quoteC
                · subst hq
                  rw [extractLoop_step_quote buf idx d s jb r hdrop h1f h2]
                  rw [extractLoop_step_quote (buf ++ ext) idx d s jb (r ++ ext)
                    hdropE hncE hnpE]
                  have hx := ih (inBlockSt buf (idx + 1) d (!s) false (jb ++ [quoteC])) ext
                    (by simp only [inBlockSt]; omega) (by simp only [inBlockSt]; omega)
                  simpa [inBlockSt] using hx
                · by_cases hlb : s = false ∧ c = lbrace
                  · obtain ⟨hs, rfl⟩ := hlb
                    subst hs
                    rw [extractLoop_step_lbrace buf idx d jb r hdrop h1f h2]
                    rw [extractLoop_step_lbrace (buf ++ ext) idx d jb (r ++ ext)
                      hdropE hncE hnpE]
                    have hx := ih (inBlockSt buf (idx + 1) (d + 1) false false
                        (if d = 0 then [lbrace] else jb ++ [lbrace])) ext
                      (by simp only [inBlockSt]; omega) (by simp only [inBlockSt]; omega)
                    simpa [inBlockSt] using hx
                  · by_cases hrb : s = false ∧ c = rbrace
                    · obtain ⟨hs, rfl⟩ := hrb
                      subst hs
                      by_cases hdm : d - 1 = 0
                      · have hd1 : d = 1 := by omega
                        subst hd1
                        rw [extractLoop_step_rbrace_emit buf idx jb r hdrop h1f h2]
                        rw [extractLoop_step_rbrace_emit (buf ++ ext) idx jb (r ++ ext)
                          hdropE hncE hnpE]
                        have hx := ih (inBlockSt buf (idx + 1) 0 false false []) ext
                          (by simp only [inBlockSt]; omega)
                          (by simp only [inBlockSt]; omega)
                        cases hP : jsonParse (jb ++ [rbrace]) with
                        | none => simpa [inBlockSt] using hx
                        | some v =>
                          simp only [inBlockSt] at hx ⊢
                          rw [hx]
                          simp
                      · rw [extractLoop_step_rbrace_noemit buf idx d jb r hdrop h1f h2 hdm]
                        rw [extractLoop_step_rbrace_noemit (buf ++ ext) idx d jb (r ++ ext)
                          hdropE hncE hnpE hdm]
                        have hx := ih (inBlockSt buf (idx + 1) (d - 1) false false
                            (jb ++ [rbrace])) ext
                          (by simp only [inBlockSt]; omega)
                          (by simp only [inBlockSt]; omega)
                        simpa [inBlockSt] using hx
                    · rw [extractLoop_step_other buf idx d s jb c r hdrop h1f h2
                        hbs hq hlb hrb]
                      rw [extractLoop_step_other (buf ++ ext) idx d s jb c (r ++ ext)
                        hdropE hncE hnpE hbs hq hlb hrb]
                      have hx := ih (inBlockSt buf (idx + 1) d s false
                          (if d > 0 then jb ++ [c] else jb)) ext
                        (by simp only [inBlockSt]; omega)
                        (by simp only [inBlockSt]; omega)
                      simpa [inBlockSt] using hx

/-- `extractStep` hands its continuation a state with the same buffer and a
strictly advanced, still in-bounds cursor; buffer preservation and cursor
bounds guaranteed by the continuation therefore transfer to the whole step. -/
theorem extractStep_state (k : ParserState → List Json × ParserState)
    (st : ParserState) (hwf : st.processedIndex ≤ st.buffer.length)
    (h : ∀ st', st'.buffer = st.buffer → st.processedIndex < st'.processedIndex →
      st'.processedIndex ≤ st.buffer.length →
      (k st').2.buffer = st'.buffer ∧ st'.processedIndex ≤ (k st').2.processedIndex ∧
      (k st').2.processedIndex ≤ st.buffer.length) :
    (extractStep k st).2.buffer = st.buffer ∧
    st.processedIndex ≤ (extractStep k st).2.processedIndex ∧
    (extractStep k st).2.processedIndex ≤ st.buffer.length := by
  have hconv : ∀ st', st'.buffer = st.buffer → st.processedIndex < st'.processedIndex →
      st'.processedIndex ≤ st.buffer.length →
      (k st').2.buffer = st.buffer ∧ st.processedIndex ≤ (k st').2.processedIndex ∧
      (k st').2.processedIndex ≤ st.buffer.length := by
    intro st' hb h1 h2
    obtain ⟨hb', hl', hr'⟩ := h st' hb h1 h2
    exact ⟨hb ▸ hb', le_trans (le_of_lt h1) hl', hr'⟩
  unfold extractStep
  cases hdrop : st.buffer.drop st.processedIndex with
  | nil => exact ⟨rfl, le_refl _, hwf⟩
  | cons c r =>
    have hRlen : (c :: r).length = st.buffer.length - st.processedIndex := by
      have h0 := List.length_drop st.processedIndex st.buffer
      rw [hdrop] at h0
      exact h0
    have hlt : st.processedIndex < st.buffer.length := by
      simp only [List.length_cons] at hRlen
      omega
    simp only []
    by_cases hin : st.insideBlock = false
    · rw [if_pos hin]
      by_cases h1 : leadsWith openTagL (c :: r) = true
      · rw [if_pos h1]
        have hlw := leadsWith_length _ _ h1
        exact hconv _ rfl (by simp only []; have h9 : 0 < openTagL.length := (by decide); omega)
          (by simp only []; omega)
      · rw [if_neg h1]
        by_cases h2 : (c :: r).length < openTagL.length ∧ leadsWith (c :: r) openTagL = true
        · rw [if_pos h2]
          exact ⟨rfl, le_refl _, hwf⟩
        · rw [if_neg h2]
          exact hconv _ rfl (by simp only []; omega) (by simp only []; omega)
    · rw [if_neg hin]
      by_cases h1 : leadsWith closeTagL (c :: r) = true
      · rw [if_pos h1]
        have hlw := leadsWith_length _ _ h1
        exact hconv _ rfl (by simp only []; have h9 : 0 < closeTagL.length := (by decide); omega)
          (by simp only []; omega)
      · rw [if_neg h1]
        by_cases h2 : (c :: r).length < closeTagL.length ∧ leadsWith (c :: r) closeTagL = true
        · rw [if_pos h2]
          exact ⟨rfl, le_refl _, hwf⟩
        · rw [if_neg h2]
          by_cases h3 : st.escapeNext = true
          · rw [if_pos h3]
            exact hconv _ rfl (by simp only []; omega) (by simp only []; omega)
          · rw [if_neg h3]
            by_cases h4 : c = bslash ∧ st.inString = true
            · rw [if_pos h4]
              exact hconv _ rfl (by simp only []; omega) (by simp only []; omega)
            · rw [if_neg h4]
              by_cases h5 : c = quoteC ∧ st.escapeNext = false
              · rw [if_pos h5]
                exact hconv _ rfl (by simp only []; omega) (by simp only []; omega)
              · rw [if_neg h5]
                by_cases h6 : st.inString = false ∧ c = lbrace
                · rw [if_pos h6]
                  exact hconv _ rfl (by simp only []; omega) (by simp only []; omega)
                · rw [if_neg h6]
                  by_cases h7 : st.inString = false ∧ c = rbrace
                  · rw [if_pos h7]
                    by_cases h8 : st.braceDepth - 1 = 0 ∧
                        (trimWs (st.jsonBuffer ++ [c])).isEmpty = false
                    · rw [if_pos h8]
                      cases hP : jsonParse (st.jsonBuffer ++ [c]) with
                      | none =>
                        exact hconv _ rfl (by simp only []; omega) (by simp only []; omega)
                      | some v =>
                        simp only []
                        exact hconv _ rfl (by simp only []; omega) (by simp only []; omega)
                    · rw [if_neg h8]
                      exact hconv _ rfl (by simp only []; omega) (by simp only []; omega)
                  · rw [if_neg h7]
                    exact hconv _ rfl (by simp only []; omega) (by simp only []; omega)

/-- The scanning loop never edits the buffer and never moves the cursor
backwards or past the end. -/
theorem extractGo_state : ∀ f : Nat, ∀ st : ParserState,
    st.processedIndex ≤ st.buffer.length →
    (extractGo f st).2.buffer = st.buffer ∧
    st.processedIndex ≤ (extractGo f st).2.processedIndex ∧
    (extractGo f st).2.processedIndex ≤ st.buffer.length := by
  intro f
  induction f with
  | zero => intro st hwf; exact ⟨rfl, le_refl _, hwf⟩
  | succ f ih =>
    intro st hwf
    have hstep : extractGo (f + 1) st = extractStep (extractGo f) st := rfl
    rw [hstep]
    apply extractStep_state _ _ hwf
    intro st' hb h1 h2
    obtain ⟨hb', hl', hr'⟩ := ih st' (by rw [hb]; exact h2)
    exact ⟨hb', hl', by rw [hb] at hr'; exact hr'⟩

/-- `extractLoop` preserves the buffer and keeps the cursor in bounds. -/
theorem extractLoop_state (st : ParserState)
    (hwf : st.processedIndex ≤ st.buffer.length) :
    (extractLoop st).2.buffer = st.buffer ∧
    st.processedIndex ≤ (extractLoop st).2.processedIndex ∧
    (extractLoop st).2.processedIndex ≤ st.buffer.length :=
  extractGo_state _ st hwf

/-- Feeding `a ++ b` in one chunk equals feeding `a` then feeding `b` to the
resulting parser state, concatenating the commands (chunk-boundary
invariance of `addChunk`). -/
theorem addChunk_append (st : ParserState) (a b : List Char)
    (hwf : st.processedIndex ≤ st.buffer.length) :
    addChunk st (a ++ b)
      = ((addChunk st a).1 ++ (addChunk (addChunk st a).2 b).1,
         (addChunk (addChunk st a).2 b).2) := by
  obtain ⟨buf, idx, inb, jb, d, s, e⟩ := st
  have hwf' : idx ≤ buf.length := hwf
  have hwfA : idx ≤ (buf ++ a).length := by rw [List.length_append]; omega
  have hbufA : (extractLoop ⟨buf ++ a, idx, inb, jb, d, s, e⟩).2.buffer = buf ++ a :=
    (extractLoop_state _ hwfA).1
  have hext := extractLoop_extend ((buf ++ a).length) ⟨buf ++ a, idx, inb, jb, d, s, e⟩ b
    (by simp only []; exact hwfA) (by simp only []; omega)
  simp only [] at hext
  simp only [addChunk]
  rw [show buf ++ (a ++ b) = (buf ++ a) ++ b from (List.append_assoc buf a b).symm]
  rw [hbufA]
  exact hext

/-- Feeding `cs ++ [c]` is feeding `cs` and then feeding `c` to the
resulting state. -/
theorem feedChunks_snoc : ∀ cs : List (List Char), ∀ c : List Char, ∀ st : ParserState,
    feedChunks st (cs ++ [c])
      = ((feedChunks st cs).1 ++ (addChunk (feedChunks st cs).2 c).1,
         (addChunk (feedChunks st cs).2 c).2) := by
  intro cs
  induction cs with
  | nil => intro c st; simp [feedChunks]
  | cons d cs ih =>
    intro c st
    simp only [List.cons_append, feedChunks, List.append_eq]
    rw [ih]
    simp [List.append_assoc]

/-- Splitting the input into one-character chunks recovers the input. -/
theorem flatten_singletons : ∀ l : List Char, (l.map (fun c => [c])).flatten = l := by
  intro l
  induction l with
  | nil => rfl
  | cons c l ih => simp [ih]

/-- Chunk-boundary invariance of the streaming extractor: starting from a
quiescent state, feeding an input split into any chunks equals feeding it
in a single chunk. -/
theorem feedChunks_flatten : ∀ cs : List (List Char), ∀ st : ParserState,
    st.processedIndex ≤ st.buffer.length →
    extractLoop st = ([], st) →
    feedChunks st cs = addChunk st cs.flatten := by
  intro cs
  induction cs using List.reverseRecOn with
  | nil =>
    intro st hwf hq
    have hnil : addChunk st [] = extractLoop st := by
      simp only [addChunk, List.append_nil]
    rw [show feedChunks st [] = ([], st) from rfl,
      show ([] : List (List Char)).flatten = ([] : List Char) from rfl, hnil, hq]
  | append_singleton cs c ih =>
    intro st hwf hq
    rw [feedChunks_snoc cs c st, ih st hwf hq]
    have hjoin : (cs ++ [c]).flatten = cs.flatten ++ c := by simp
    rw [hjoin, addChunk_append st cs.flatten c hwf]

/-- `findTag` finds the first match: if `tag` matches at `k` and at no
earlier position, the result is `some k`. -/
theorem findTag_eq_some : ∀ (s : List Char) (k : Nat) (tag : List Char),
    leadsWith tag (s.drop k) = true →
    (∀ i, i < k → leadsWith tag (s.drop i) = false) →
    k ≤ s.length →
    findTag tag s = some k := by
  intro s
  induction s with
  | nil =>
    intro k tag h1 h2 h3
    have hk : k = 0 := Nat.le_zero.mp h3
    subst hk
    rw [List.drop_nil] at h1
    simp only [findTag]
    rw [if_pos h1]
  | cons c s' ih =>
    intro k tag h1 h2 h3
    cases k with
    | zero =>
      rw [List.drop_zero] at h1
      simp only [findTag]
      rw [if_pos h1]
    | succ k' =>
      have h0 : leadsWith tag (c :: s') = false := by
        have := h2 0 (Nat.succ_pos _)
        rwa [List.drop_zero] at this
      simp only [findTag]
      rw [if_neg (by simp [h0])]
      have hih := ih k' tag
        (by rw [List.drop_succ_cons] at h1; exact h1)
        (fun i hi => by
          have := h2 (i + 1) (by omega)
          rwa [List.drop_succ_cons] at this)
        (by simp only [List.length_cons] at h3; omega)
      rw [hih]
      rfl

/-- The full-buffer extractor returns nothing on an empty string. -/
theorem extractSCGo_nil : ∀ f : Nat, extractSCGo f [] = [] := by
  intro f
  cases f with
  | zero => rfl
  | succ f =>
    simp only [extractSCGo]
    rw [show findTag openTagL [] = none from by decide]

/-- Full-buffer (non-incremental) extraction of a single well-formed block
whose interior parses as a JSON array: the regex finds the two tags, the
trimmed interior is parsed once, and the array is spread into the result. -/
theorem extractSceneCommands_block (body : List Char) (vs : List Json)
    (hsafe : ∀ i, i < body.length →
      leadsWith closeTagL ((body ++ closeTagL).drop i) = false)
    (hparse : jsonParse (trimWs body) = some (Json.arr vs)) :
    extractSceneCommands (openTagL ++ (body ++ closeTagL)) = vs := by
  rw [extractSceneCommands]
  have hfind1 : findTag openTagL (openTagL ++ (body ++ closeTagL)) = some 0 :=
    findTag_eq_some _ 0 openTagL
      (by rw [List.drop_zero]; exact leadsWith_self_append _ _)
      (fun i hi => absurd hi (Nat.not_lt_zero _))
      (Nat.zero_le _)
  have hdrop1 : (openTagL ++ (body ++ closeTagL)).drop (0 + openTagL.length)
      = body ++ closeTagL := by
    rw [Nat.zero_add]
    exact List.drop_left openTagL (body ++ closeTagL)
  have hfind2 : findTag closeTagL (body ++ closeTagL) = some body.length :=
    findTag_eq_some _ body.length closeTagL
      (by rw [List.drop_left]; exact leadsWith_refl _)
      (fun i hi => hsafe i hi)
      (by rw [List.length_append]; omega)
  have htake : (body ++ closeTagL).take body.length = body := List.take_left _ _
  have hdrop2 : (body ++ closeTagL).drop (body.length + closeTagL.length) = [] := by
    rw [← List.length_append]
    exact List.drop_length _
  simp only [extractSCGo]
  rw [hfind1]
  simp only []
  rw [hdrop1, hfind2]
  simp only []
  rw [htake, hparse, hdrop2]
  rw [show findTag openTagL ([] : List Char) = none from by decide]
  simp

/-- If every element maps to `some` of the corresponding value, `filterMap`
returns exactly those values. -/
theorem filterMap_of_map_some : ∀ (os : List (List Char)) (vs : List Json),
    os.map jsonParse = vs.map some → os.filterMap jsonParse = vs := by
  intro os
  induction os with
  | nil =>
    intro vs h
    cases vs with
    | nil => rfl
    | cons v vs => simp at h
  | cons o os ih =>
    intro vs h
    cases vs with
    | nil => simp at h
    | cons v vs =>
      rw [List.map_cons, List.map_cons] at h
      injection h with h1 h2
      rw [List.filterMap_cons, h1, ih vs h2]

/-- C1: feeding a complete, well-formed command block to the incremental
extractor in one single chunk, or split at every single-character
boundary, yields the same command list as parsing the block once in the
non-incremental full-buffer mode (`JSON.parse` of the whole trimmed
interior, spreading the top-level array into the command list). -/
theorem c1_streaming_equivalence (body : List Char) (os : List (List Char)) (vs : List Json)
    (hb : BodyChunks body os)
    (hsafe : ∀ i, i < body.length →
      leadsWith closeTagL ((body ++ closeTagL).drop i) = false)
    (hmap : os.map jsonParse = vs.map some)
    (hparse : jsonParse (trimWs body) = some (Json.arr vs)) :
    (addChunk initState (openTagL ++ (body ++ closeTagL))).1 = vs ∧
    (feedChunks initState ((openTagL ++ (body ++ closeTagL)).map (fun c => [c]))).1 = vs ∧
    extractSceneCommands (openTagL ++ (body ++ closeTagL)) = vs := by
  have h1 : (addChunk initState (openTagL ++ (body ++ closeTagL))).1 = vs := by
    rw [extract_block body os hb hsafe, filterMap_of_map_some os vs hmap]
  refine ⟨h1, ?_, extractSceneCommands_block body vs hsafe hparse⟩
  rw [feedChunks_flatten ((openTagL ++ (body ++ closeTagL)).map (fun c => [c])) initState
    (Nat.le_refl 0) rfl]
  rw [flatten_singletons]
  exact h1

/-- The streaming equivalence instantiated at a concrete block carrying
one `clearScene` command inside a JSON array. -/
theorem c1_streaming_equivalence_witness :
    (addChunk initState (openTagL ++ (c1body ++ closeTagL))).1 = c1vs ∧
    (feedChunks initState ((openTagL ++ (c1body ++ closeTagL)).map (fun c => [c]))).1 = c1vs ∧
    extractSceneCommands (openTagL ++ (c1body ++ closeTagL)) = c1vs :=
  c1_streaming_equivalence c1body [c1obj] c1vs
    (BodyChunks.cons "[".data c1obj "]".data [] (by decide)
      (by unfold Objish; decide) (BodyChunks.nil "]".data (by decide)))
    (by decide)
    (by rfl)
    (by rfl)

/-- A complete well-formed block appended after an arbitrary prefix is
fully extracted from any out-of-block resumption state (any leftover
capture buffer, depth — even negative — and string flags): the opening
tag resets the whole in-block machine. -/
theorem extract_block_from (B jb : List Char) (d : Int) (s e : Bool)
    (body : List Char) (os : List (List Char))
    (hb : BodyChunks body os)
    (hn : ∀ i, i < B.length →
      leadsWith openTagL ((B ++ (openTagL ++ (body ++ closeTagL))).drop i) = false ∧
      ¬ (((B ++ (openTagL ++ (body ++ closeTagL))).drop i).length < openTagL.length ∧
         leadsWith ((B ++ (openTagL ++ (body ++ closeTagL))).drop i) openTagL = true))
    (hsafe : ∀ k, k < body.length →
      leadsWith closeTagL ((body ++ closeTagL).drop k) = false) :
    (extractLoop ⟨B ++ (openTagL ++ (body ++ closeTagL)), 0, false, jb, d, s, e⟩).1
      = os.filterMap jsonParse := by
  have hskip : ∀ n : Nat, n ≤ B.length →
      extractLoop ⟨B ++ (openTagL ++ (body ++ closeTagL)), B.length - n, false, jb, d, s, e⟩
        = extractLoop ⟨B ++ (openTagL ++ (body ++ closeTagL)), B.length, false, jb, d, s, e⟩ := by
    intro n
    induction n with
    | zero => intro _; rfl
    | succ n ihn =>
      intro hle
      have hi : B.length - (n + 1) < B.length := by omega
      obtain ⟨hn1, hn2⟩ := hn (B.length - (n + 1)) hi
      have hdropc : ∃ c r, (B ++ (openTagL ++ (body ++ closeTagL))).drop
          (B.length - (n + 1)) = c :: r := by
        cases hd : (B ++ (openTagL ++ (body ++ closeTagL))).drop (B.length - (n + 1)) with
        | nil =>
          have := List.drop_eq_nil_iff.mp hd
          rw [List.length_append] at this
          omega
        | cons c r => exact ⟨c, r, rfl⟩
      obtain ⟨c, r, hdc⟩ := hdropc
      rw [extractLoop_outside_skip _ _ jb d s e c r hdc (by rw [← hdc]; exact hn1)
        (by rw [← hdc]; exact hn2)]
      have hstep : B.length - (n + 1) + 1 = B.length - n := by omega
      rw [hstep]
      exact ihn (by omega)
  have h0 := hskip B.length (Nat.le_refl _)
  rw [show B.length - B.length = 0 by omega] at h0
  rw [h0]
  have hdrop0 : (B ++ (openTagL ++ (body ++ closeTagL))).drop B.length
      = openTagL ++ (body ++ closeTagL) := List.drop_left _ _
  have hopen : leadsWith openTagL
      ((B ++ (openTagL ++ (body ++ closeTagL))).drop B.length) = true := by
    rw [hdrop0]
    exact leadsWith_self_append _ _
  rw [extractLoop_openTag _ B.length jb d s e hopen]
  have hdrop1 : (B ++ (openTagL ++ (body ++ closeTagL))).drop (B.length + openTagL.length)
      = body ++ closeTagL := by
    have h1 : ((B ++ (openTagL ++ (body ++ closeTagL))).drop B.length).drop openTagL.length
        = (B ++ (openTagL ++ (body ++ closeTagL))).drop (B.length + openTagL.length) := by
      rw [List.drop_drop]
    rw [← h1, hdrop0]
    exact List.drop_left _ _
  have hdropmid : ∀ k,
      (B ++ (openTagL ++ (body ++ closeTagL))).drop (B.length + openTagL.length + k)
        = (body ++ closeTagL).drop k := by
    intro k
    have h1 : ((B ++ (openTagL ++ (body ++ closeTagL))).drop (B.length + openTagL.length)).drop k
        = (B ++ (openTagL ++ (body ++ closeTagL))).drop (B.length + openTagL.length + k) := by
      rw [List.drop_drop]
    rw [← h1, hdrop1]
  rw [scan_body _ body os hb (B.length + openTagL.length) closeTagL hdrop1
    (by
      intro j hj hj'
      obtain ⟨k, rfl⟩ : ∃ k, j = B.length + openTagL.length + k :=
        ⟨j - (B.length + openTagL.length), by omega⟩
      rw [hdropmid k]
      exact hsafe k (by omega))
    (by
      intro j hj hj'
      obtain ⟨k, rfl⟩ : ∃ k, j = B.length + openTagL.length + k :=
        ⟨j - (B.length + openTagL.length), by omega⟩
      rw [hdropmid k]
      rw [List.length_drop, List.length_append]
      omega)]
  rw [extractLoop_closeTag _ _ [] 0 false false
    (by rw [hdropmid body.length, List.drop_left]; exact leadsWith_refl closeTagL)]
  rw [extractLoop_nil _ (by
    rw [List.drop_eq_nil_iff]
    simp [List.length_append]
    omega)]
  simp

/-- C2 counterexample: the brace depth is not clamped — a `\x7d` scanned at
depth 0 inside a block drives the depth to −1 — and a well-formed object
later in the same block is then NOT extracted, although that object parses
on its own. -/
theorem c2_counterexample :
    (addChunk initState (openTagL ++ "\x7d".data)).2.braceDepth = -1 ∧
    (addChunk initState (openTagL ++ (("\x7d".data ++ c1obj) ++ closeTagL))).1 = [] ∧
    jsonParse c1obj = some (Json.obj [("action".data, Json.str "clearScene".data)]) :=
  ⟨by decide, by rfl, by rfl⟩

/-- C2 (amended): `addChunk` is a total function — it never faults, only
appends to the buffer and moves the cursor forward within bounds — but the
brace depth is NOT clamped (a stray `\x7d` drives it negative, killing
extraction for the rest of that block); extraction of well-formed objects
resumes with the next block, whose opening tag resets the in-block state. -/
theorem c2_total_unclamped_recovery (st : ParserState) (chunk : List Char)
    (hwf : st.processedIndex ≤ st.buffer.length) :
    ((addChunk st chunk).2.buffer = st.buffer ++ chunk ∧
     st.processedIndex ≤ (addChunk st chunk).2.processedIndex ∧
     (addChunk st chunk).2.processedIndex ≤ st.buffer.length + chunk.length) ∧
    (∀ B jb : List Char, ∀ d : Int, ∀ s e : Bool,
      ∀ body : List Char, ∀ os : List (List Char), BodyChunks body os →
      (∀ i, i < B.length →
        leadsWith openTagL ((B ++ (openTagL ++ (body ++ closeTagL))).drop i) = false ∧
        ¬ (((B ++ (openTagL ++ (body ++ closeTagL))).drop i).length < openTagL.length ∧
           leadsWith ((B ++ (openTagL ++ (body ++ closeTagL))).drop i) openTagL = true)) →
      (∀ k, k < body.length →
        leadsWith closeTagL ((body ++ closeTagL).drop k) = false) →
      (extractLoop ⟨B ++ (openTagL ++ (body ++ closeTagL)), 0, false, jb, d, s, e⟩).1
        = os.filterMap jsonParse) := by
  constructor
  · have h := extractLoop_state { st with buffer := st.buffer ++ chunk }
      (by simp only []; rw [List.length_append]; omega)
    refine ⟨h.1, h.2.1, ?_⟩
    have h3 := h.2.2
    simp only [] at h3
    rw [List.length_append] at h3
    exact h3
  · intro B jb d s e body os hb hn hsafe
    exact extract_block_from B jb d s e body os hb hn hsafe

/-- The amended safety statement instantiated: a concrete `addChunk` call
keeps its bounds, and a concrete well-formed block is fully recovered even
from a poisoned resumption state (leftover capture, depth −1, in-string
flag set). -/
theorem c2_total_unclamped_recovery_witness :
    ((addChunk initState c1body).2.buffer = initState.buffer ++ c1body ∧
     initState.processedIndex ≤ (addChunk initState c1body).2.processedIndex ∧
     (addChunk initState c1body).2.processedIndex
       ≤ initState.buffer.length + c1body.length) ∧
    (extractLoop ⟨"x".data ++ (openTagL ++ (c1body ++ closeTagL)), 0, false,
        "\x7d".data, -1, true, false⟩).1 = [c1obj].filterMap jsonParse :=
  ⟨(c2_total_unclamped_recovery initState c1body (Nat.le_refl 0)).1,
   (c2_total_unclamped_recovery initState c1body (Nat.le_refl 0)).2 "x".data "\x7d".data (-1)
     true false c1body [c1obj]
     (BodyChunks.cons "[".data c1obj "]".data [] (by decide)
       (by unfold Objish; decide) (BodyChunks.nil "]".data (by decide)))
     (by decide) (by decide)⟩

/-- C3: a block whose interior is one malformed brace-balanced fragment
followed by one well-formed command object yields exactly the well-formed
command: the malformed capture is dropped silently when `JSON.parse` fails
at its closing brace, and scanning continues unharmed. -/
theorem c3_malformed_isolation (body o₁ o₂ : List Char) (v : Json)
    (hb : BodyChunks body [o₁, o₂])
    (hsafe : ∀ i, i < body.length →
      leadsWith closeTagL ((body ++ closeTagL).drop i) = false)
    (hbad : jsonParse o₁ = none)
    (hgood : jsonParse o₂ = some v) :
    (addChunk initState (openTagL ++ (body ++ closeTagL))).1 = [v] := by
  rw [extract_block body [o₁, o₂] hb hsafe]
  simp [List.filterMap_cons, hbad, hgood]

/-- The malformed-fragment isolation instantiated: `\x7baction\x7d` followed
by a `clearScene` command yields exactly the `clearScene` command. -/
theorem c3_malformed_isolation_witness :
    (addChunk initState (openTagL ++ (c3body ++ closeTagL))).1
      = [Json.obj [("action".data, Json.str "clearScene".data)]] :=
  c3_malformed_isolation c3body c3bad c1obj
    (Json.obj [("action".data, Json.str "clearScene".data)])
    (BodyChunks.cons "[".data c3bad (",".data ++ (c1obj ++ "]".data)) [c1obj] (by decide)
      (by unfold Objish; decide)
      (BodyChunks.cons ",".data c1obj "]".data [] (by decide)
        (by unfold Objish; decide) (BodyChunks.nil "]".data (by decide))))
    (by decide) (by rfl) (by rfl)

end Scene
